import Mathlib

/-!
Verification of the streaming-exchange core of the ilp-sdk repository
(src/services/switch.ts).

The arithmetic in the source uses bignumber.js, whose values are either
finite decimals, positive or negative infinity, or NaN.  We embed that
value space as the inductive type BigNum over the rationals, with the
library's comparison, arithmetic, rounding and minimum semantics
(division by zero yields a signed infinity or NaN, every comparison
with NaN is false, BigNumber.min propagates NaN, and so on).

The streamMoney loop of switch.ts is embedded as a step function on a
session state (idle deadline, packet counters, cumulative fulfilled
amount, adaptive max packet amount) driven by one environment
observation per iteration: the sampled capacities, the wall-clock
times, and the outcome of the packet that the iteration sends.  Runs
of the loop are folds of the step function over finite observation
traces.
-/

namespace IlpSdk

/-- Value space of bignumber.js: NaN, signed infinities, or a finite
decimal (embedded as a rational). -/
inductive BigNum where
  | nan : BigNum
  | posInf : BigNum
  | negInf : BigNum
  | fin (q : ℚ) : BigNum
deriving DecidableEq

namespace BigNum

/-- Comparison lte of bignumber.js: any comparison with NaN is false. -/
def lte : BigNum → BigNum → Bool
  | nan, _ => false
  | _, nan => false
  | negInf, _ => true
  | _, posInf => true
  | posInf, _ => false
  | fin _, negInf => false
  | fin a, fin b => decide (a ≤ b)

/-- Strict comparison lt of bignumber.js. -/
def lt : BigNum → BigNum → Bool
  | nan, _ => false
  | _, nan => false
  | negInf, negInf => false
  | negInf, _ => true
  | _, negInf => false
  | posInf, _ => false
  | fin _, posInf => true
  | fin a, fin b => decide (a < b)

/-- Comparison gte of bignumber.js. -/
def gte (a b : BigNum) : Bool := lte b a

/-- Comparison gt of bignumber.js. -/
def gt (a b : BigNum) : Bool := lt b a

/-- Negation. -/
def neg : BigNum → BigNum
  | nan => nan
  | posInf => negInf
  | negInf => posInf
  | fin q => fin (-q)

/-- Addition, with Infinity + (-Infinity) = NaN. -/
def add : BigNum → BigNum → BigNum
  | nan, _ => nan
  | _, nan => nan
  | posInf, negInf => nan
  | negInf, posInf => nan
  | posInf, _ => posInf
  | _, posInf => posInf
  | negInf, _ => negInf
  | _, negInf => negInf
  | fin a, fin b => fin (a + b)

/-- Subtraction (minus in bignumber.js). -/
def sub (a b : BigNum) : BigNum := a.add b.neg

/-- Multiplication, with 0 times an infinity = NaN. -/
def mul : BigNum → BigNum → BigNum
  | nan, _ => nan
  | _, nan => nan
  | posInf, posInf => posInf
  | posInf, negInf => negInf
  | negInf, posInf => negInf
  | negInf, negInf => posInf
  | posInf, fin q => if 0 < q then posInf else if q < 0 then negInf else nan
  | fin q, posInf => if 0 < q then posInf else if q < 0 then negInf else nan
  | negInf, fin q => if 0 < q then negInf else if q < 0 then posInf else nan
  | fin q, negInf => if 0 < q then negInf else if q < 0 then posInf else nan
  | fin a, fin b => fin (a * b)

/-- Division: a nonzero finite value divided by zero is a signed
infinity, 0/0 is NaN, a finite value divided by an infinity is 0. -/
def div : BigNum → BigNum → BigNum
  | nan, _ => nan
  | _, nan => nan
  | posInf, posInf => nan
  | posInf, negInf => nan
  | negInf, posInf => nan
  | negInf, negInf => nan
  | posInf, fin q => if q < 0 then negInf else posInf
  | negInf, fin q => if q < 0 then posInf else negInf
  | fin _, posInf => fin 0
  | fin _, negInf => fin 0
  | fin a, fin b =>
      if b = 0 then (if a = 0 then nan else if 0 < a then posInf else negInf)
      else fin (a / b)

/-- Rounding of an exact quotient toward zero, as an integer. -/
def ratTrunc (q : ℚ) : ℤ := if 0 ≤ q then ⌊q⌋ else ⌈q⌉

/-- Method dividedToIntegerBy of bignumber.js: division with the
result rounded toward zero; division by zero behaves as in div. -/
def divToInt : BigNum → BigNum → BigNum
  | nan, _ => nan
  | _, nan => nan
  | posInf, posInf => nan
  | posInf, negInf => nan
  | negInf, posInf => nan
  | negInf, negInf => nan
  | posInf, fin q => if q < 0 then negInf else posInf
  | negInf, fin q => if q < 0 then posInf else negInf
  | fin _, posInf => fin 0
  | fin _, negInf => fin 0
  | fin a, fin b =>
      if b = 0 then (if a = 0 then nan else if 0 < a then posInf else negInf)
      else fin ((ratTrunc (a / b) : ℚ))

/-- Method dp(0, ROUND_CEIL) (same as integerValue(ROUND_CEIL)):
round a finite value up to an integer; NaN and infinities unchanged. -/
def dp0Ceil : BigNum → BigNum
  | fin q => fin ((⌈q⌉ : ℤ) : ℚ)
  | x => x

/-- Minimum of two values, as BigNumber.min: NaN propagates. -/
def min2 (a b : BigNum) : BigNum :=
  match a, b with
  | nan, _ => nan
  | _, nan => nan
  | x, y => if x.lte y then x else y

/-- Method isZero. -/
def isZero : BigNum → Bool
  | fin q => decide (q = 0)
  | _ => false

end BigNum

open BigNum

/-- Idle window of switch.ts: end the stream if no packets are
fulfilled within this interval (milliseconds). -/
def IDLE_TIMEOUT : ℚ := 10000

/-- Static data of one stream, resolved by streamMoney before the loop
starts.  The unit conversions of the settlers and the price oracle
(the external convert function of crypto-rate-utils) are linear maps;
they are determined by three positive factors. -/
structure Config where
  /-- Total amount to send, already converted to source base units. -/
  amountToSend : ℚ
  /-- Slippage tolerance (defaults to 0.01 in the source). -/
  slippage : ℚ
  /-- Source base units per source exchange unit. -/
  srcScale : ℚ
  /-- Destination base units per destination exchange unit. -/
  destScale : ℚ
  /-- Oracle rate: destination base units per source base unit. -/
  rate : ℚ
deriving DecidableEq

/-- Mutable session state of the streamMoney loop (lines 85-94 of
switch.ts). -/
structure Session where
  /-- Idle deadline: the stream fails once an iteration starts after it. -/
  timeout : ℚ
  prepareCount : ℕ
  fulfillCount : ℕ
  totalFulfilled : BigNum
  maxPacketAmount : BigNum
deriving DecidableEq

/-- Resolution of one sent packet, as observed by the loop: a fulfill,
a reject carrying a code and (for F08) the two UInt64 amounts parsed
from its data, or a thrown error from the transport. -/
inductive Response where
  | fulfill : Response
  | reject (code : String) (foreignReceivedAmount foreignMaxPacketAmount : ℕ) : Response
  | throwErr (e : String) : Response
deriving DecidableEq

/-- Environment observation consumed by one loop iteration: the clock
at iteration start, the sampled capacities of the uplinks, the clock
when the response settles, and the response itself. -/
structure Obs where
  now : ℚ
  availableToSend : ℚ
  availableToReceive : ℚ
  /-- Value of availableToDebit in source exchange units, before the
  conversion on lines 149-152. -/
  availableToDebitRaw : ℚ
  respNow : ℚ
  response : Response
deriving DecidableEq

/-- Terminal conditions of the loop: the branch taken on exit.  The
first five log a distinguishing message; thrownError propagates a
transport error. -/
inductive Final where
  | timedOut : Final
  | succeeded : Final
  | overshoot : Final
  | insufficientOutgoing : Final
  | insufficientIncoming : Final
  | thrownError (e : String) : Final
deriving DecidableEq

/-- Result of one iteration of trySendPacket: either a terminal
condition (recording whether the accept predicate is still registered
on dest at that moment, and the amount of the packet this iteration
sent, if any), or the state for the next iteration. -/
inductive StepOut where
  | finished (f : Final) (registered : Bool) (sent : Option BigNum) (s : Session) : StepOut
  | next (sent : Option BigNum) (s : Session) : StepOut
deriving DecidableEq

/-- Packet sizing of lines 158-170: take the minimum of
availableToDebit, the remaining amount and maxPacketAmount, then
re-derive the amount as an equal split of the remaining amount over
the ceiling number of packets, rounding both divisions up. -/
def packetSizeB (availableToDebit remaining maxPacketAmount : BigNum) : BigNum :=
  let packetAmount := min2 availableToDebit (min2 remaining maxPacketAmount)
  let remainingNumPackets := (remaining.div packetAmount).dp0Ceil
  (remaining.div remainingNumPackets).dp0Ceil

/-- Cross-multiplied max packet amount of lines 232-234:
packetAmount.times(foreignMaxPacketAmount).dividedToIntegerBy(foreignReceivedAmount). -/
def f08NewMax (packetAmount : BigNum) (foreignReceivedAmount foreignMaxPacketAmount : ℕ) : BigNum :=
  (packetAmount.mul (fin (foreignMaxPacketAmount : ℚ))).divToInt (fin (foreignReceivedAmount : ℚ))

/-- F08 reaction of lines 236-246: if the new maximum is at least the
sent amount, log an anomaly and keep maxPacketAmount; if it is
strictly smaller, adopt it; otherwise (NaN) keep maxPacketAmount. -/
def applyF08 (maxPacketAmount packetAmount : BigNum)
    (foreignReceivedAmount foreignMaxPacketAmount : ℕ) : BigNum :=
  let newMaxPacketAmount := f08NewMax packetAmount foreignReceivedAmount foreignMaxPacketAmount
  if newMaxPacketAmount.gte packetAmount then maxPacketAmount
  else if newMaxPacketAmount.lt packetAmount then newMaxPacketAmount
  else maxPacketAmount

/-- Remaining amount of line 103: amountToSend minus totalFulfilled. -/
def remainingOf (cfg : Config) (s : Session) : BigNum :=
  (fin cfg.amountToSend).sub s.totalFulfilled

/-- Remaining amount converted to source exchange units (lines 121-124). -/
def remainingToSendOf (cfg : Config) (s : Session) : BigNum :=
  (remainingOf cfg s).div (fin cfg.srcScale)

/-- Remaining amount converted through the oracle to destination
exchange units (lines 135-139). -/
def remainingToReceiveOf (cfg : Config) (s : Session) : BigNum :=
  ((remainingOf cfg s).mul (fin cfg.rate)).div (fin cfg.destScale)

/-- Available debit headroom converted to source base units (lines 149-152). -/
def availableToDebitOf (cfg : Config) (o : Obs) : BigNum :=
  fin (o.availableToDebitRaw * cfg.srcScale)

/-- Packet amount this iteration would send (lines 158-170). -/
def packetAmountOf (cfg : Config) (s : Session) (o : Obs) : BigNum :=
  packetSizeB (availableToDebitOf cfg o) (remainingOf cfg s) s.maxPacketAmount

/-- One iteration of trySendPacket (lines 96-262 of switch.ts). -/
def trySendPacket (cfg : Config) (s : Session) (o : Obs) : StepOut :=
  if s.timeout < o.now then .finished .timedOut false none s
  else if (remainingOf cfg s).isZero then .finished .succeeded false none s
  else if (remainingOf cfg s).lte (fin 0) then .finished .overshoot false none s
  else if (remainingToSendOf cfg s).gt (fin o.availableToSend) then
    .finished .insufficientOutgoing false none s
  else if (remainingToReceiveOf cfg s).gt (fin o.availableToReceive) then
    .finished .insufficientIncoming false none s
  else if (availableToDebitOf cfg o).lte (fin 0) then .next none s
  else
    let packetAmount := packetAmountOf cfg s o
    let s1 : Session := { s with prepareCount := s.prepareCount + 1 }
    match o.response with
    | .throwErr e => .finished (.thrownError e) true (some packetAmount) s1
    | .reject code fr fm =>
      if code = "F08" then
        .next (some packetAmount)
          { s1 with maxPacketAmount := applyF08 s1.maxPacketAmount packetAmount fr fm }
      else .next (some packetAmount) s1
    | .fulfill =>
      .next (some packetAmount)
        { s1 with
          timeout := o.respNow + IDLE_TIMEOUT
          totalFulfilled := s1.totalFulfilled.add packetAmount
          fulfillCount := s1.fulfillCount + 1 }

/-- Result of driving the loop over a finite observation trace. -/
inductive Outcome where
  | finished (f : Final) (registered : Bool) (s : Session) : Outcome
  | running (s : Session) : Outcome
deriving DecidableEq

/-- Recursive loop of trySendPacket over a trace of observations. -/
def runStream (cfg : Config) : Session → List Obs → Outcome
  | s, [] => .running s
  | s, o :: os =>
    match trySendPacket cfg s o with
    | .finished f r _ s1 => .finished f r s1
    | .next _ s1 => runStream cfg s1 os

/-- Loop run that also records, in order, the amount of every packet
handed to sendPacket. -/
def runStreamSent (cfg : Config) : Session → List BigNum → List Obs → Outcome × List BigNum
  | s, acc, [] => (.running s, acc)
  | s, acc, o :: os =>
    match trySendPacket cfg s o with
    | .finished f r sent s1 => (.finished f r s1, acc ++ sent.toList)
    | .next sent s1 => runStreamSent cfg s1 (acc ++ sent.toList) os

/-- Initial session state (lines 89-94): the idle deadline is the
start time plus the idle window, counters are zero, no amount is
fulfilled, and maxPacketAmount is Infinity. -/
def initialSession (t0 : ℚ) : Session :=
  { timeout := t0 + IDLE_TIMEOUT
    prepareCount := 0
    fulfillCount := 0
    totalFulfilled := fin 0
    maxPacketAmount := posInf }

/-- Cleanup of lines 264-269: whatever way the loop ends, the finally
clause deregisters any packet handler still registered on dest. -/
def finallyCleanup : Outcome → Outcome
  | .finished f _ s => .finished f false s
  | .running s => .running s

/-- Entry point: run the loop from the initial state over a trace and
apply the unconditional finally cleanup. -/
def streamMoney (cfg : Config) (t0 : ℚ) (obsL : List Obs) : Outcome :=
  finallyCleanup (runStream cfg (initialSession t0) obsL)

/-- Whether a packet handler is registered on dest after an outcome. -/
def handlerRegistered : Outcome → Bool
  | .finished _ r _ => r
  | .running _ => false

/-- Session state carried by an outcome. -/
def stateOf : Outcome → Session
  | .finished _ _ s => s
  | .running s => s

/-- What the promise returned by streamMoney settles to, per terminal
condition: success and overshoot resolve; timeout and the two capacity
failures reject with no reason value (Promise.reject() with no
argument, lines 100, 131, 146); a thrown transport error rejects with
that error. -/
inductive SettleResult where
  | resolved : SettleResult
  | rejected (reason : Option String) : SettleResult
deriving DecidableEq

/-- Mapping from terminal condition to the settled promise. -/
def promiseResult : Final → SettleResult
  | .succeeded => .resolved
  | .overshoot => .resolved
  | .timedOut => .rejected none
  | .insufficientOutgoing => .rejected none
  | .insufficientIncoming => .rejected none
  | .thrownError e => .rejected (some e)

/-- Exchange-rate acceptance predicate of lines 182-194: the claimed
destination amount must be at least the source packet amount converted
through the price oracle to destination base units, times one minus
the slippage, rounded up. -/
def acceptExchangeRate (cfg : Config) (sourceAmount : BigNum) (destAmount : ℚ) : Bool :=
  (fin destAmount).gte
    (((sourceAmount.mul (fin cfg.rate)).mul (fin (1 - cfg.slippage))).dp0Ceil)

/-- An incoming packet as seen by the registered handler: a claimed
condition (hashes are opaque, embedded as naturals) and a claimed
destination amount. -/
structure IncomingPacket where
  executionCondition : ℕ
  amount : ℚ
deriving DecidableEq

/-- Reply of the registered handler. -/
inductive HandlerResult where
  | fulfillPacket : HandlerResult
  | applicationError : HandlerResult
deriving DecidableEq

/-- Accept predicate registered on dest (lines 199-205): disclose the
fulfillment exactly when the exchange rate is acceptable and the
claimed condition equals this packet's committed hash; otherwise reply
with the generic application error. -/
def packetHandler (cfg : Config) (executionCondition : ℕ) (packetAmount : BigNum)
    (p : IncomingPacket) : HandlerResult :=
  if acceptExchangeRate cfg packetAmount p.amount
      && decide (executionCondition = p.executionCondition)
    then .fulfillPacket else .applicationError

/-- Shape invariant maintained by the loop: the fulfilled total is a
finite nonnegative value, and maxPacketAmount is either the initial
Infinity or a finite nonnegative integer adopted from an F08
cross-multiplication. -/
def SessionOK (s : Session) : Prop :=
  (∃ t : ℚ, s.totalFulfilled = fin t ∧ 0 ≤ t) ∧
    (s.maxPacketAmount = posInf ∨ ∃ m : ℕ, s.maxPacketAmount = fin m)

/-- Session state carried by a step result. -/
def sessionOfStep : StepOut → Session
  | .finished _ _ _ s => s
  | .next _ s => s

/-- Sent packet amount recorded by a step result. -/
def sentOfStep : StepOut → Option BigNum
  | .finished _ _ sent _ => sent
  | .next sent _ => sent

/-- A packet resolution that is a rejection with a code other than
F08. -/
def rejectNonF08 : Response → Prop
  | .reject code _ _ => code ≠ "F08"
  | _ => False

/-- Largest finite amount in a list of sent packet amounts (zero when
none). -/
def maxSentQ : List BigNum → ℚ
  | [] => 0
  | b :: rest =>
    match b with
    | fin q => max q (maxSentQ rest)
    | _ => maxSentQ rest

/-- First n observations drawn from an infinite observation supply. -/
def obsList (f : ℕ → Obs) : ℕ → List Obs
  | 0 => []
  | n + 1 => f 0 :: obsList (fun i => f (i + 1)) n

/-- Unlimited capacities relative to the full amount of the stream:
the whole remaining amount always fits the outgoing and incoming
capacity, and debit headroom is always positive. -/
def capUnlimited (cfg : Config) (o : Obs) : Prop :=
  cfg.amountToSend / cfg.srcScale ≤ o.availableToSend ∧
    cfg.amountToSend * cfg.rate / cfg.destScale ≤ o.availableToReceive ∧
    0 < o.availableToDebitRaw

/-- Stream configuration with a fractional amountToSend of one half of
a base unit, used to refute claim C4 as stated. -/
def cfgHalf : Config := ⟨1/2, 1/100, 1, 1, 1⟩

/-- Observation with unlimited capacities, a fulfilling destination
and prompt timing. -/
def obsUnl : Obs := ⟨0, 1000, 1000, 1000, 0, .fulfill⟩

/-- Guards of one iteration up to the send: the iteration is not past
the idle deadline, the remaining amount is strictly positive, both
capacity checks pass, and debit headroom is positive; under these the
iteration sends a packet. -/
structure ReachesSend (cfg : Config) (s : Session) (o : Obs) : Prop where
  timely : ¬ s.timeout < o.now
  notZero : (remainingOf cfg s).isZero = false
  notOver : (remainingOf cfg s).lte (fin 0) = false
  sendCap : (remainingToSendOf cfg s).gt (fin o.availableToSend) = false
  recvCap : (remainingToReceiveOf cfg s).gt (fin o.availableToReceive) = false
  debit : (availableToDebitOf cfg o).lte (fin 0) = false

namespace BigNum

@[simp] theorem lte_fin_fin (a b : ℚ) : lte (fin a) (fin b) = decide (a ≤ b) := rfl
@[simp] theorem lt_fin_fin (a b : ℚ) : lt (fin a) (fin b) = decide (a < b) := rfl
@[simp] theorem lte_fin_posInf (a : ℚ) : lte (fin a) posInf = true := rfl
@[simp] theorem lte_posInf_fin (a : ℚ) : lte posInf (fin a) = false := rfl
@[simp] theorem lte_posInf_posInf : lte posInf posInf = true := rfl
theorem gte_def (a b : BigNum) : gte a b = lte b a := rfl
theorem gt_def (a b : BigNum) : gt a b = lt b a := rfl
@[simp] theorem add_fin_fin (a b : ℚ) : add (fin a) (fin b) = fin (a + b) := rfl
@[simp] theorem sub_fin_fin (a b : ℚ) : sub (fin a) (fin b) = fin (a - b) := by
  simp [sub, add, neg, sub_eq_add_neg]
@[simp] theorem mul_fin_fin (a b : ℚ) : mul (fin a) (fin b) = fin (a * b) := rfl
@[simp] theorem isZero_fin (q : ℚ) : isZero (fin q) = decide (q = 0) := rfl
@[simp] theorem dp0Ceil_fin (q : ℚ) : dp0Ceil (fin q) = fin ((⌈q⌉ : ℤ) : ℚ) := rfl
@[simp] theorem dp0Ceil_posInf : dp0Ceil posInf = posInf := rfl

theorem div_fin_fin_of_ne (a b : ℚ) (hb : b ≠ 0) :
    div (fin a) (fin b) = fin (a / b) := by
  simp [div, hb]

theorem div_fin_zero_pos (a : ℚ) (ha : 0 < a) :
    div (fin a) (fin 0) = posInf := by
  simp [div, ha, ne_of_gt ha]

@[simp] theorem div_fin_posInf (a : ℚ) : div (fin a) posInf = fin 0 := rfl

theorem min2_fin_fin (a b : ℚ) :
    min2 (fin a) (fin b) = fin (min a b) := by
  by_cases h : a ≤ b
  · simp [min2, lte, h, min_eq_left h]
  · simp [min2, lte, h, min_eq_right (le_of_not_le h)]

@[simp] theorem min2_fin_posInf (a : ℚ) : min2 (fin a) posInf = fin a := by
  simp [min2, lte]

end BigNum

theorem trySendPacket_timedOut {cfg : Config} {s : Session} {o : Obs}
    (h : s.timeout < o.now) :
    trySendPacket cfg s o = .finished .timedOut false none s := by
  simp [trySendPacket, h]

theorem trySendPacket_succeeded {cfg : Config} {s : Session} {o : Obs}
    (h1 : ¬ s.timeout < o.now) (h2 : (remainingOf cfg s).isZero = true) :
    trySendPacket cfg s o = .finished .succeeded false none s := by
  simp [trySendPacket, h1, h2]

theorem trySendPacket_overshoot {cfg : Config} {s : Session} {o : Obs}
    (h1 : ¬ s.timeout < o.now) (h2 : (remainingOf cfg s).isZero = false)
    (h3 : (remainingOf cfg s).lte (fin 0) = true) :
    trySendPacket cfg s o = .finished .overshoot false none s := by
  simp [trySendPacket, h1, h2, h3]

theorem trySendPacket_insufficientOutgoing {cfg : Config} {s : Session} {o : Obs}
    (h1 : ¬ s.timeout < o.now) (h2 : (remainingOf cfg s).isZero = false)
    (h3 : (remainingOf cfg s).lte (fin 0) = false)
    (h4 : (remainingToSendOf cfg s).gt (fin o.availableToSend) = true) :
    trySendPacket cfg s o = .finished .insufficientOutgoing false none s := by
  simp [trySendPacket, h1, h2, h3, h4]

theorem trySendPacket_insufficientIncoming {cfg : Config} {s : Session} {o : Obs}
    (h1 : ¬ s.timeout < o.now) (h2 : (remainingOf cfg s).isZero = false)
    (h3 : (remainingOf cfg s).lte (fin 0) = false)
    (h4 : (remainingToSendOf cfg s).gt (fin o.availableToSend) = false)
    (h5 : (remainingToReceiveOf cfg s).gt (fin o.availableToReceive) = true) :
    trySendPacket cfg s o = .finished .insufficientIncoming false none s := by
  simp [trySendPacket, h1, h2, h3, h4, h5]

theorem trySendPacket_debitWait {cfg : Config} {s : Session} {o : Obs}
    (h1 : ¬ s.timeout < o.now) (h2 : (remainingOf cfg s).isZero = false)
    (h3 : (remainingOf cfg s).lte (fin 0) = false)
    (h4 : (remainingToSendOf cfg s).gt (fin o.availableToSend) = false)
    (h5 : (remainingToReceiveOf cfg s).gt (fin o.availableToReceive) = false)
    (h6 : (availableToDebitOf cfg o).lte (fin 0) = true) :
    trySendPacket cfg s o = .next none s := by
  simp [trySendPacket, h1, h2, h3, h4, h5, h6]

theorem trySendPacket_fulfill {cfg : Config} {s : Session} {o : Obs}
    (h : ReachesSend cfg s o) (hr : o.response = .fulfill) :
    trySendPacket cfg s o = .next (some (packetAmountOf cfg s o))
      { timeout := o.respNow + IDLE_TIMEOUT
        prepareCount := s.prepareCount + 1
        fulfillCount := s.fulfillCount + 1
        totalFulfilled := s.totalFulfilled.add (packetAmountOf cfg s o)
        maxPacketAmount := s.maxPacketAmount } := by
  obtain ⟨h1, h2, h3, h4, h5, h6⟩ := h
  simp [trySendPacket, h1, h2, h3, h4, h5, h6, hr]

theorem trySendPacket_rejectF08 {cfg : Config} {s : Session} {o : Obs}
    {fr fm : ℕ} (h : ReachesSend cfg s o) (hr : o.response = .reject "F08" fr fm) :
    trySendPacket cfg s o = .next (some (packetAmountOf cfg s o))
      { timeout := s.timeout
        prepareCount := s.prepareCount + 1
        fulfillCount := s.fulfillCount
        totalFulfilled := s.totalFulfilled
        maxPacketAmount := applyF08 s.maxPacketAmount (packetAmountOf cfg s o) fr fm } := by
  obtain ⟨h1, h2, h3, h4, h5, h6⟩ := h
  simp [trySendPacket, h1, h2, h3, h4, h5, h6, hr]

theorem trySendPacket_rejectOther {cfg : Config} {s : Session} {o : Obs}
    {code : String} {fr fm : ℕ} (h : ReachesSend cfg s o)
    (hr : o.response = .reject code fr fm) (hc : code ≠ "F08") :
    trySendPacket cfg s o = .next (some (packetAmountOf cfg s o))
      { s with prepareCount := s.prepareCount + 1 } := by
  obtain ⟨h1, h2, h3, h4, h5, h6⟩ := h
  simp [trySendPacket, h1, h2, h3, h4, h5, h6, hr, hc]

theorem trySendPacket_throw {cfg : Config} {s : Session} {o : Obs}
    {e : String} (h : ReachesSend cfg s o) (hr : o.response = .throwErr e) :
    trySendPacket cfg s o = .finished (.thrownError e) true
      (some (packetAmountOf cfg s o)) { s with prepareCount := s.prepareCount + 1 } := by
  obtain ⟨h1, h2, h3, h4, h5, h6⟩ := h
  simp [trySendPacket, h1, h2, h3, h4, h5, h6, hr]

theorem remainingOf_fin {cfg : Config} {s : Session} {t : ℚ}
    (ht : s.totalFulfilled = fin t) :
    remainingOf cfg s = fin (cfg.amountToSend - t) := by
  simp [remainingOf, ht]

theorem remaining_pos {cfg : Config} {s : Session} {t : ℚ}
    (ht : s.totalFulfilled = fin t)
    (h3 : (remainingOf cfg s).lte (fin 0) = false) :
    0 < cfg.amountToSend - t := by
  rw [remainingOf_fin ht] at h3
  simp only [BigNum.lte_fin_fin, decide_eq_false_iff_not, not_le] at h3
  exact h3

theorem availDebit_pos {cfg : Config} {o : Obs}
    (h6 : (availableToDebitOf cfg o).lte (fin 0) = false) :
    0 < o.availableToDebitRaw * cfg.srcScale := by
  simp only [availableToDebitOf, BigNum.lte_fin_fin, decide_eq_false_iff_not, not_le] at h6
  exact h6

theorem packetSizeB_fin_pos {a r p : ℚ} (hr : 0 < r) (hp : 0 < p) {mp : BigNum}
    (hmin : min2 (fin a) (min2 (fin r) mp) = fin p) :
    packetSizeB (fin a) (fin r) mp
      = fin (((⌈r / ((⌈r / p⌉ : ℤ) : ℚ)⌉ : ℤ) : ℚ)) := by
  have hn : (0 : ℤ) < ⌈r / p⌉ := Int.ceil_pos.mpr (div_pos hr hp)
  have hnq : ((⌈r / p⌉ : ℤ) : ℚ) ≠ 0 := by
    exact_mod_cast ne_of_gt hn
  rw [packetSizeB, hmin, BigNum.div_fin_fin_of_ne _ _ (ne_of_gt hp), BigNum.dp0Ceil_fin,
    BigNum.div_fin_fin_of_ne _ _ hnq, BigNum.dp0Ceil_fin]

theorem packetSizeB_max_zero {a r : ℚ} (ha : 0 < a) (hr : 0 < r) :
    packetSizeB (fin a) (fin r) (fin 0) = fin 0 := by
  have hmin : min2 (fin a) (min2 (fin r) (fin 0)) = fin 0 := by
    rw [min2_fin_fin, min2_fin_fin]
    simp [min_eq_right hr.le, min_eq_right ha.le]
  rw [packetSizeB, hmin, BigNum.div_fin_zero_pos _ hr, BigNum.dp0Ceil_posInf,
    BigNum.div_fin_posInf, BigNum.dp0Ceil_fin]
  norm_num

/-- Bounds of the equal-split re-derivation: with a positive remaining
amount r and a positive bound p, the re-derived packet amount
ceil(r / ceil(r / p)) is at least 1, at most ceil(p), and at most
ceil(r). -/
theorem sizeBounds {r p : ℚ} (hr : 0 < r) (hp : 0 < p) :
    1 ≤ ⌈r / ((⌈r / p⌉ : ℤ) : ℚ)⌉ ∧ ⌈r / ((⌈r / p⌉ : ℤ) : ℚ)⌉ ≤ ⌈p⌉ ∧
      ⌈r / ((⌈r / p⌉ : ℤ) : ℚ)⌉ ≤ ⌈r⌉ := by
  have hn : (0 : ℤ) < ⌈r / p⌉ := Int.ceil_pos.mpr (div_pos hr hp)
  have hnq : (0 : ℚ) < ((⌈r / p⌉ : ℤ) : ℚ) := by exact_mod_cast hn
  have hone : (1 : ℚ) ≤ ((⌈r / p⌉ : ℤ) : ℚ) := by exact_mod_cast hn
  refine ⟨Int.ceil_pos.mpr (div_pos hr hnq), ?_, ?_⟩
  · have hle : r / ((⌈r / p⌉ : ℤ) : ℚ) ≤ p := by
      have h1 : r / p ≤ ((⌈r / p⌉ : ℤ) : ℚ) := Int.le_ceil _
      have h2 : r / ((⌈r / p⌉ : ℤ) : ℚ) ≤ r / (r / p) :=
        div_le_div_of_nonneg_left hr.le (div_pos hr hp) h1
      have h3 : r / (r / p) = p := by
        field_simp
      calc r / ((⌈r / p⌉ : ℤ) : ℚ) ≤ r / (r / p) := h2
        _ = p := h3
    exact Int.ceil_le_ceil hle
  · have hle : r / ((⌈r / p⌉ : ℤ) : ℚ) ≤ r := div_le_self hr.le hone
    exact Int.ceil_le_ceil hle

/-- Under the shape invariant, an iteration that reaches the send
computes a finite nonnegative integral packet amount, and that amount
never exceeds the current maxPacketAmount. -/
theorem packetAmount_ok {cfg : Config} {s : Session} {o : Obs}
    (hOK : SessionOK s) (h : ReachesSend cfg s o) :
    ∃ k : ℕ, packetAmountOf cfg s o = fin k ∧
      (fin (k : ℚ)).lte s.maxPacketAmount = true := by
  obtain ⟨⟨t, ht, _⟩, hmp⟩ := hOK
  have hr : 0 < cfg.amountToSend - t := remaining_pos ht h.notOver
  have ha : 0 < o.availableToDebitRaw * cfg.srcScale := availDebit_pos h.debit
  set r := cfg.amountToSend - t with hrdef
  set a := o.availableToDebitRaw * cfg.srcScale with hadef
  have hrem : remainingOf cfg s = fin r := remainingOf_fin ht
  have hav : availableToDebitOf cfg o = fin a := rfl
  rcases hmp with hmp | ⟨m, hmp⟩
  · -- maxPacketAmount is still Infinity
    have hmin : min2 (fin a) (min2 (fin r) s.maxPacketAmount) = fin (min a r) := by
      rw [hmp, min2_fin_posInf, min2_fin_fin]
    have hpmin : 0 < min a r := lt_min ha hr
    have hsz := packetSizeB_fin_pos (a := a) hr hpmin hmin
    obtain ⟨h1, _, _⟩ := sizeBounds hr hpmin
    refine ⟨(⌈r / ((⌈r / min a r⌉ : ℤ) : ℚ)⌉).toNat, ?_, ?_⟩
    · rw [packetAmountOf, hrem, hav, hsz]
      congr 1
      exact_mod_cast (Int.toNat_of_nonneg (le_trans one_pos.le h1)).symm
    · rw [hmp]
      simp [BigNum.lte]
  · -- maxPacketAmount is a finite natural m
    by_cases hm : m = 0
    · subst hm
      refine ⟨0, ?_, ?_⟩
      · rw [packetAmountOf, hrem, hav, hmp]
        simpa using packetSizeB_max_zero ha hr
      · rw [hmp]
        simp
    · have hmq : 0 < (m : ℚ) := by positivity
      have hmin : min2 (fin a) (min2 (fin r) s.maxPacketAmount)
          = fin (min a (min r m)) := by
        rw [hmp, min2_fin_fin, min2_fin_fin]
      have hpmin : 0 < min a (min r (m : ℚ)) := lt_min ha (lt_min hr hmq)
      have hsz := packetSizeB_fin_pos (a := a) hr hpmin hmin
      obtain ⟨h1, h2, _⟩ := sizeBounds hr hpmin
      have hcm : ⌈min a (min r (m : ℚ))⌉ ≤ (m : ℤ) := by
        have : min a (min r (m : ℚ)) ≤ (m : ℚ) :=
          le_trans (min_le_right _ _) (min_le_right _ _)
        calc ⌈min a (min r (m : ℚ))⌉ ≤ ⌈((m : ℤ) : ℚ)⌉ := by
              exact_mod_cast Int.ceil_le_ceil this
          _ = (m : ℤ) := Int.ceil_intCast _
      have hkm : ⌈r / ((⌈r / min a (min r (m : ℚ))⌉ : ℤ) : ℚ)⌉ ≤ (m : ℤ) :=
        le_trans h2 hcm
      refine ⟨(⌈r / ((⌈r / min a (min r (m : ℚ))⌉ : ℤ) : ℚ)⌉).toNat, ?_, ?_⟩
      · rw [packetAmountOf, hrem, hav, hsz]
        congr 1
        exact_mod_cast (Int.toNat_of_nonneg (le_trans one_pos.le h1)).symm
      · rw [hmp]
        simp only [BigNum.lte_fin_fin, decide_eq_true_eq]
        have := Int.toNat_le_toNat hkm
        rw [Int.toNat_natCast] at this
        exact_mod_cast this

theorem bigLte_refl_of_shape {x : BigNum}
    (h : x = posInf ∨ ∃ m : ℕ, x = fin m) : x.lte x = true := by
  rcases h with h | ⟨m, h⟩ <;> simp [h, BigNum.lte]

theorem bigLte_trans {a b c : BigNum} (hab : a.lte b = true)
    (hbc : b.lte c = true) : a.lte c = true := by
  cases a <;> cases b <;> cases c <;> simp_all [BigNum.lte]
  exact le_trans hab hbc

/-- Possible shapes of the cross-multiplied max packet amount when the
sent packet amount is a natural number: NaN (0 divided by 0), positive
infinity (a positive value divided by 0), or a nonnegative integer. -/
theorem f08NewMax_cases (k fr fm : ℕ) :
    f08NewMax (fin (k : ℚ)) fr fm = nan ∨ f08NewMax (fin (k : ℚ)) fr fm = posInf ∨
      ∃ z : ℕ, f08NewMax (fin (k : ℚ)) fr fm = fin z := by
  rw [f08NewMax, BigNum.mul_fin_fin]
  by_cases hfr : (fr : ℚ) = 0
  · by_cases hk : (k : ℚ) * (fm : ℚ) = 0
    · left
      simp [BigNum.divToInt, hfr, hk]
    · right; left
      have hpos : 0 < (k : ℚ) * (fm : ℚ) :=
        lt_of_le_of_ne (by positivity) (Ne.symm hk)
      simp [BigNum.divToInt, hfr, hk, hpos]
  · right; right
    have hq : 0 ≤ (k : ℚ) * (fm : ℚ) / (fr : ℚ) := by positivity
    obtain ⟨z, hz⟩ := Int.eq_ofNat_of_zero_le (Int.floor_nonneg.mpr hq)
    refine ⟨z, ?_⟩
    rw [BigNum.divToInt]
    simp only [hfr, if_false]
    rw [BigNum.ratTrunc, if_pos hq, hz]
    norm_num

/-- The F08 reaction keeps the shape invariant and never raises
maxPacketAmount, provided the sent packet amount is a natural number
not exceeding the current maxPacketAmount. -/
theorem applyF08_ok {maxPA : BigNum} {k fr fm : ℕ}
    (hmp : maxPA = posInf ∨ ∃ m : ℕ, maxPA = fin m)
    (hle : (fin (k : ℚ)).lte maxPA = true) :
    (applyF08 maxPA (fin (k : ℚ)) fr fm = posInf ∨
      ∃ m : ℕ, applyF08 maxPA (fin (k : ℚ)) fr fm = fin m) ∧
      (applyF08 maxPA (fin (k : ℚ)) fr fm).lte maxPA = true := by
  rw [applyF08]
  by_cases hg : (f08NewMax (fin (k : ℚ)) fr fm).gte (fin (k : ℚ)) = true
  · simp only [hg, if_true]
    exact ⟨hmp, bigLte_refl_of_shape hmp⟩
  · simp only [hg, if_false, Bool.false_eq_true]
    by_cases hl : (f08NewMax (fin (k : ℚ)) fr fm).lt (fin (k : ℚ)) = true
    · simp only [hl, if_true]
      rcases f08NewMax_cases k fr fm with hc | hc | ⟨z, hc⟩
      · rw [hc] at hl
        simp [BigNum.lt] at hl
      · rw [hc] at hl
        simp [BigNum.lt] at hl
      · rw [hc] at hl ⊢
        simp only [BigNum.lt_fin_fin, decide_eq_true_eq] at hl
        have hzk : z < k := by exact_mod_cast hl
        refine ⟨Or.inr ⟨z, rfl⟩, ?_⟩
        rcases hmp with h | ⟨m, h⟩
        · simp [h, BigNum.lte]
        · rw [h] at hle ⊢
          simp only [BigNum.lte_fin_fin, decide_eq_true_eq] at hle ⊢
          have : (k : ℚ) ≤ m := hle
          calc (z : ℚ) ≤ (k : ℚ) := by exact_mod_cast hzk.le
            _ ≤ (m : ℚ) := this
    · simp only [hl, if_false, Bool.false_eq_true]
      exact ⟨hmp, bigLte_refl_of_shape hmp⟩

/-- One iteration preserves the shape invariant and never raises
maxPacketAmount. -/
theorem trySendPacket_preserves {cfg : Config} {s : Session} {o : Obs}
    (hOK : SessionOK s) :
    SessionOK (sessionOfStep (trySendPacket cfg s o)) ∧
      (sessionOfStep (trySendPacket cfg s o)).maxPacketAmount.lte
        s.maxPacketAmount = true := by
  have hrefl := bigLte_refl_of_shape hOK.2
  by_cases h1 : s.timeout < o.now
  · rw [trySendPacket_timedOut h1]; exact ⟨hOK, hrefl⟩
  by_cases h2 : (remainingOf cfg s).isZero = true
  · rw [trySendPacket_succeeded h1 h2]; exact ⟨hOK, hrefl⟩
  rw [Bool.not_eq_true] at h2
  by_cases h3 : (remainingOf cfg s).lte (fin 0) = true
  · rw [trySendPacket_overshoot h1 h2 h3]; exact ⟨hOK, hrefl⟩
  rw [Bool.not_eq_true] at h3
  by_cases h4 : (remainingToSendOf cfg s).gt (fin o.availableToSend) = true
  · rw [trySendPacket_insufficientOutgoing h1 h2 h3 h4]; exact ⟨hOK, hrefl⟩
  rw [Bool.not_eq_true] at h4
  by_cases h5 : (remainingToReceiveOf cfg s).gt (fin o.availableToReceive) = true
  · rw [trySendPacket_insufficientIncoming h1 h2 h3 h4 h5]; exact ⟨hOK, hrefl⟩
  rw [Bool.not_eq_true] at h5
  by_cases h6 : (availableToDebitOf cfg o).lte (fin 0) = true
  · rw [trySendPacket_debitWait h1 h2 h3 h4 h5 h6]; exact ⟨hOK, hrefl⟩
  rw [Bool.not_eq_true] at h6
  have hreach : ReachesSend cfg s o := ⟨h1, h2, h3, h4, h5, h6⟩
  obtain ⟨k, hk, hkle⟩ := packetAmount_ok hOK hreach
  obtain ⟨⟨t, ht, ht0⟩, hmp⟩ := hOK
  cases hresp : o.response with
  | fulfill =>
    rw [trySendPacket_fulfill hreach hresp]
    refine ⟨⟨⟨t + k, ?_, by positivity⟩, hmp⟩, hrefl⟩
    simp [sessionOfStep, ht, hk]
  | reject code fr fm =>
    by_cases hcode : code = "F08"
    · subst hcode
      rw [trySendPacket_rejectF08 hreach hresp, hk]
      obtain ⟨hshape, hle⟩ := @applyF08_ok _ _ fr fm hmp hkle
      exact ⟨⟨⟨t, ht, ht0⟩, hshape⟩, hle⟩
    · rw [trySendPacket_rejectOther hreach hresp hcode]
      exact ⟨⟨⟨t, ht, ht0⟩, hmp⟩, hrefl⟩
  | throwErr e =>
    rw [trySendPacket_throw hreach hresp]
    exact ⟨⟨⟨t, ht, ht0⟩, hmp⟩, hrefl⟩

/-- A whole run preserves the shape invariant and never raises
maxPacketAmount. -/
theorem runStream_preserves {cfg : Config} :
    ∀ (obsL : List Obs) (s : Session), SessionOK s →
      SessionOK (stateOf (runStream cfg s obsL)) ∧
        (stateOf (runStream cfg s obsL)).maxPacketAmount.lte
          s.maxPacketAmount = true := by
  intro obsL
  induction obsL with
  | nil =>
    intro s hOK
    exact ⟨hOK, bigLte_refl_of_shape hOK.2⟩
  | cons o os ih =>
    intro s hOK
    obtain ⟨hOK1, hle1⟩ := @trySendPacket_preserves cfg s o hOK
    rw [runStream]
    cases hstep : trySendPacket cfg s o with
    | finished f r sent s1 =>
      rw [hstep] at hOK1 hle1
      exact ⟨hOK1, hle1⟩
    | next sent s1 =>
      rw [hstep] at hOK1 hle1
      obtain ⟨hOK2, hle2⟩ := ih s1 hOK1
      exact ⟨hOK2, bigLte_trans hle2 hle1⟩

/-- Claim C3: the registered accept predicate returns the fulfillment
if and only if the claimed condition equals the committed hash and the
claimed destination amount is at least the source packet amount
converted through the oracle to destination base units, multiplied by
one minus the slippage and rounded up; a claimed amount below that
threshold is rejected with the generic application error even when the
condition hash is correct. -/
theorem claimC3 (cfg : Config) (committed : ℕ) (q : ℚ) (p : IncomingPacket) :
    (packetHandler cfg committed (fin q) p = .fulfillPacket ↔
      (committed = p.executionCondition ∧
        ((⌈q * cfg.rate * (1 - cfg.slippage)⌉ : ℤ) : ℚ) ≤ p.amount)) ∧
    (p.amount < ((⌈q * cfg.rate * (1 - cfg.slippage)⌉ : ℤ) : ℚ) →
      packetHandler cfg committed (fin q) p = .applicationError) := by
  have hrate : acceptExchangeRate cfg (fin q) p.amount
      = decide (((⌈q * cfg.rate * (1 - cfg.slippage)⌉ : ℤ) : ℚ) ≤ p.amount) := by
    rw [acceptExchangeRate, BigNum.mul_fin_fin, BigNum.mul_fin_fin, BigNum.dp0Ceil_fin,
      BigNum.gte_def, BigNum.lte_fin_fin]
  constructor
  · rw [packetHandler, hrate]
    by_cases hc : committed = p.executionCondition
    · by_cases ha : ((⌈q * cfg.rate * (1 - cfg.slippage)⌉ : ℤ) : ℚ) ≤ p.amount
      · simp [hc, ha]
      · simp [hc, ha]
    · simp [hc]
  · intro hlt
    rw [packetHandler, hrate]
    simp [not_le.mpr hlt]

/-- Claim C3 witness: concrete packets on both sides of the threshold
with a correct and an incorrect condition hash. -/
theorem claimC3_witness :
    packetHandler ⟨100, 1/100, 1, 1, 1⟩ 7 (fin 100) ⟨7, 99⟩ = .fulfillPacket ∧
      packetHandler ⟨100, 1/100, 1, 1, 1⟩ 7 (fin 100) ⟨7, 98⟩ = .applicationError := by
  have hceil : (⌈(100 : ℚ) * 1 * (1 - 1/100)⌉ : ℤ) = 99 := by
    have : (100 : ℚ) * 1 * (1 - 1/100) = ((99 : ℤ) : ℚ) := by norm_num
    rw [this, Int.ceil_intCast]
  constructor
  · exact (claimC3 ⟨100, 1/100, 1, 1, 1⟩ 7 100 ⟨7, 99⟩).1.mpr
      (by constructor
          · rfl
          · rw [hceil]; norm_num)
  · exact (claimC3 ⟨100, 1/100, 1, 1, 1⟩ 7 100 ⟨7, 98⟩).2
      (by rw [hceil]; norm_num)

theorem sentOfStep_of_reach {cfg : Config} {s : Session} {o : Obs}
    (h : ReachesSend cfg s o) :
    sentOfStep (trySendPacket cfg s o) = some (packetAmountOf cfg s o) := by
  cases hresp : o.response with
  | fulfill => rw [trySendPacket_fulfill h hresp]; rfl
  | reject code fr fm =>
    by_cases hcode : code = "F08"
    · subst hcode
      rw [trySendPacket_rejectF08 h hresp]; rfl
    · rw [trySendPacket_rejectOther h hresp hcode]; rfl
  | throwErr e => rw [trySendPacket_throw h hresp]; rfl

/-- Claim C1: every iteration that sends a packet computes its amount
by first taking the minimum of availableToDebit (converted to source
base units), the remaining amount and maxPacketAmount, then
re-deriving it as an equal split with both divisions rounded up:
numPackets = ceil(remaining / packetAmount) and then
packetAmount = ceil(remaining / numPackets).  Stated for the two
shapes maxPacketAmount can take: the initial Infinity, and a finite
positive bound. -/
theorem claimC1 (cfg : Config) (s : Session) (o : Obs) (t : ℚ)
    (ht : s.totalFulfilled = fin t) (hreach : ReachesSend cfg s o) :
    sentOfStep (trySendPacket cfg s o) = some (packetAmountOf cfg s o) ∧
    (s.maxPacketAmount = posInf →
      packetAmountOf cfg s o =
        fin ((⌈(cfg.amountToSend - t) /
          ((⌈(cfg.amountToSend - t) /
            min (o.availableToDebitRaw * cfg.srcScale) (cfg.amountToSend - t)⌉ : ℤ) : ℚ)⌉ : ℤ) : ℚ)) ∧
    (∀ m : ℚ, s.maxPacketAmount = fin m → 0 < m →
      packetAmountOf cfg s o =
        fin ((⌈(cfg.amountToSend - t) /
          ((⌈(cfg.amountToSend - t) /
            min (o.availableToDebitRaw * cfg.srcScale)
              (min (cfg.amountToSend - t) m)⌉ : ℤ) : ℚ)⌉ : ℤ) : ℚ)) := by
  have hr : 0 < cfg.amountToSend - t := remaining_pos ht hreach.notOver
  have ha : 0 < o.availableToDebitRaw * cfg.srcScale := availDebit_pos hreach.debit
  have hrem : remainingOf cfg s = fin (cfg.amountToSend - t) := remainingOf_fin ht
  refine ⟨sentOfStep_of_reach hreach, ?_, ?_⟩
  · intro hmp
    have hmin : min2 (fin (o.availableToDebitRaw * cfg.srcScale))
        (min2 (fin (cfg.amountToSend - t)) s.maxPacketAmount)
        = fin (min (o.availableToDebitRaw * cfg.srcScale) (cfg.amountToSend - t)) := by
      rw [hmp, min2_fin_posInf, min2_fin_fin]
    rw [packetAmountOf, hrem, availableToDebitOf,
      packetSizeB_fin_pos hr (lt_min ha hr) hmin]
  · intro m hmp hm
    have hmin : min2 (fin (o.availableToDebitRaw * cfg.srcScale))
        (min2 (fin (cfg.amountToSend - t)) s.maxPacketAmount)
        = fin (min (o.availableToDebitRaw * cfg.srcScale)
            (min (cfg.amountToSend - t) m)) := by
      rw [hmp, min2_fin_fin, min2_fin_fin]
    rw [packetAmountOf, hrem, availableToDebitOf,
      packetSizeB_fin_pos hr (lt_min ha (lt_min hr hm)) hmin]

theorem reach_cfgW (r : Response) :
    ReachesSend ⟨100, 1/100, 1, 1, 1⟩ (initialSession 0) ⟨0, 1000, 1000, 1000, 0, r⟩ := by
  constructor <;>
    norm_num [initialSession, IDLE_TIMEOUT, remainingOf, remainingToSendOf,
      remainingToReceiveOf, availableToDebitOf, BigNum.sub, BigNum.add, BigNum.neg,
      BigNum.div, BigNum.mul, BigNum.isZero, BigNum.lte, BigNum.gt_def, BigNum.lt]

/-- Claim C1 witness: a concrete first iteration with remaining amount
100, debit headroom 1000 and no packet bound yet sizes the packet as
ceil(100 / ceil(100 / min 1000 100)) = 100 and sends exactly that. -/
theorem claimC1_witness :
    packetAmountOf ⟨100, 1/100, 1, 1, 1⟩ (initialSession 0)
        ⟨0, 1000, 1000, 1000, 0, .fulfill⟩ = fin 100 ∧
      sentOfStep (trySendPacket ⟨100, 1/100, 1, 1, 1⟩ (initialSession 0)
        ⟨0, 1000, 1000, 1000, 0, .fulfill⟩) = some (fin 100) := by
  obtain ⟨hsent, hinf, _⟩ := claimC1 ⟨100, 1/100, 1, 1, 1⟩ (initialSession 0)
    ⟨0, 1000, 1000, 1000, 0, .fulfill⟩ 0 rfl (reach_cfgW _)
  have hpa : packetAmountOf ⟨100, 1/100, 1, 1, 1⟩ (initialSession 0)
      ⟨0, 1000, 1000, 1000, 0, .fulfill⟩
      = fin ((⌈((100:ℚ) - 0) / ((⌈((100:ℚ) - 0) /
          min ((1000:ℚ) * 1) ((100:ℚ) - 0)⌉ : ℤ) : ℚ)⌉ : ℤ) : ℚ) := hinf rfl
  have e1 : ((100:ℚ) - 0) / min ((1000:ℚ) * 1) ((100:ℚ) - 0) = ((1:ℤ) : ℚ) := by
    norm_num
  rw [e1, Int.ceil_intCast] at hpa
  have e2 : ((100:ℚ) - 0) / ((1:ℤ) : ℚ) = ((100:ℤ) : ℚ) := by norm_num
  rw [e2, Int.ceil_intCast] at hpa
  have hpa100 : packetAmountOf ⟨100, 1/100, 1, 1, 1⟩ (initialSession 0)
      ⟨0, 1000, 1000, 1000, 0, .fulfill⟩ = fin 100 := by
    rw [hpa]; norm_num
  exact ⟨hpa100, by rw [hsent, hpa100]⟩

/-- Claim C2: on every F08 rejection the session computes
newMax = packetAmount * foreignMax / foreignReceived with the quotient
rounded down to an integer; if newMax is at least the sent packet
amount it leaves maxPacketAmount unchanged, and if newMax is strictly
smaller it adopts it; the loop applies exactly this update; and over
any run of a session maxPacketAmount is non-increasing, never
raised. -/
theorem claimC2 :
    (∀ (p : ℚ) (fr fm : ℕ), 0 ≤ p → 0 < fr →
      f08NewMax (fin p) fr fm = fin ((⌊p * (fm : ℚ) / (fr : ℚ)⌋ : ℤ) : ℚ)) ∧
    (∀ (maxPA pa : BigNum) (fr fm : ℕ), (f08NewMax pa fr fm).gte pa = true →
      applyF08 maxPA pa fr fm = maxPA) ∧
    (∀ (maxPA pa : BigNum) (fr fm : ℕ), (f08NewMax pa fr fm).lt pa = true →
      applyF08 maxPA pa fr fm = f08NewMax pa fr fm) ∧
    (∀ (cfg : Config) (s : Session) (o : Obs) (fr fm : ℕ),
      ReachesSend cfg s o → o.response = .reject "F08" fr fm →
      (sessionOfStep (trySendPacket cfg s o)).maxPacketAmount
        = applyF08 s.maxPacketAmount (packetAmountOf cfg s o) fr fm) ∧
    (∀ (cfg : Config) (obsL : List Obs) (s : Session), SessionOK s →
      (stateOf (runStream cfg s obsL)).maxPacketAmount.lte
        s.maxPacketAmount = true) := by
  refine ⟨?_, ?_, ?_, ?_, ?_⟩
  · intro p fr fm hp hfr
    have hfrq : ((fr : ℚ)) ≠ 0 := by positivity
    have hq : 0 ≤ p * (fm : ℚ) / (fr : ℚ) := by positivity
    rw [f08NewMax, BigNum.mul_fin_fin, BigNum.divToInt]
    simp only [hfrq, if_false]
    rw [BigNum.ratTrunc, if_pos hq]
  · intro maxPA pa fr fm hg
    rw [applyF08]
    simp only [hg, if_true]
  · intro maxPA pa fr fm hl
    have hg : (f08NewMax pa fr fm).gte pa = false := by
      cases hpa : f08NewMax pa fr fm <;> cases hb : pa <;>
        simp_all [BigNum.gte, BigNum.lte, BigNum.lt]
    rw [applyF08]
    simp only [hg, hl, if_true, if_false, Bool.false_eq_true]
  · intro cfg s o fr fm hreach hresp
    rw [trySendPacket_rejectF08 hreach hresp, sessionOfStep]
  · intro cfg obsL s hOK
    exact (runStream_preserves obsL s hOK).2

/-- Claim C2 witness: a packet of 100 rejected with
foreignReceived = 100, foreignMax = 50 yields newMax = 50, which is
adopted; rerunning the adoption cannot raise it, and a concrete
one-iteration run never raises maxPacketAmount. -/
theorem claimC2_witness :
    f08NewMax (fin 100) 100 50 = fin 50 ∧
      applyF08 posInf (fin 100) 100 50 = fin 50 ∧
      (stateOf (runStream ⟨100, 1/100, 1, 1, 1⟩ (initialSession 0)
          [⟨0, 1000, 1000, 1000, 0, .reject "F08" 100 50⟩])).maxPacketAmount.lte
        (initialSession 0).maxPacketAmount = true := by
  have hnew : f08NewMax (fin 100) 100 50 = fin 50 := by
    rw [claimC2.1 100 100 50 (by norm_num) (by norm_num)]
    have : (100 : ℚ) * ((50 : ℕ) : ℚ) / ((100 : ℕ) : ℚ) = ((50 : ℤ) : ℚ) := by
      norm_num
    rw [this, Int.floor_intCast]
    norm_num
  refine ⟨hnew, ?_, ?_⟩
  · have hlt : (f08NewMax (fin 100) 100 50).lt (fin 100) = true := by
      rw [hnew]; norm_num [BigNum.lt]
    rw [claimC2.2.2.1 posInf (fin 100) 100 50 hlt, hnew]
  · exact claimC2.2.2.2.2 ⟨100, 1/100, 1, 1, 1⟩
      [⟨0, 1000, 1000, 1000, 0, .reject "F08" 100 50⟩] (initialSession 0)
      ⟨⟨0, rfl, le_refl 0⟩, Or.inl rfl⟩

/-- Claim C10 counterexample: an F08 rejection reporting both a
received amount of zero and a foreign maximum of zero makes the
cross-multiplication compute 0/0 = NaN, which is not infinite and does
not satisfy the anomaly-branch comparison newMax gte packetAmount;
maxPacketAmount is nevertheless left unchanged. -/
theorem claimC10_counterexample :
    f08NewMax (fin 10) 0 0 = nan ∧ f08NewMax (fin 10) 0 0 ≠ posInf ∧
      (f08NewMax (fin 10) 0 0).gte (fin 10) = false ∧
      applyF08 posInf (fin 10) 0 0 = posInf := by
  have hnan : f08NewMax (fin 10) 0 0 = nan := by
    rw [f08NewMax, BigNum.mul_fin_fin]
    norm_num [BigNum.divToInt]
  refine ⟨hnan, by rw [hnan]; exact fun h => BigNum.noConfusion h, ?_, ?_⟩
  · rw [hnan]; rfl
  · rw [applyF08, hnan]; rfl

/-- Claim C10, amended: for every F08 rejection whose payload reports
a received amount of zero, the cross-multiplication does not fault
(division by zero yields Infinity or NaN in bignumber.js) and
maxPacketAmount is always left unchanged; when the product
packetAmount * foreignMax is positive the computed new maximum is
Infinity and falls into the anomaly branch (newMax gte packetAmount),
while when the product is zero the result is NaN and falls into
neither branch. -/
theorem claimC10 (maxPA : BigNum) (p : ℚ) (fm : ℕ) (hp : 0 ≤ p) :
    applyF08 maxPA (fin p) 0 fm = maxPA ∧
      (0 < p * (fm : ℚ) →
        f08NewMax (fin p) 0 fm = posInf ∧
          (f08NewMax (fin p) 0 fm).gte (fin p) = true) := by
  have hcases : f08NewMax (fin p) 0 fm
      = (if p * (fm : ℚ) = 0 then nan else posInf) := by
    rw [f08NewMax, BigNum.mul_fin_fin, BigNum.divToInt]
    by_cases h : p * (fm : ℚ) = 0
    · simp [h]
    · have hpos : 0 < p * (fm : ℚ) := lt_of_le_of_ne (by positivity) (Ne.symm h)
      simp [h, hpos]
  constructor
  · rw [applyF08, hcases]
    by_cases h : p * (fm : ℚ) = 0
    · simp [h, BigNum.gte, BigNum.lte, BigNum.lt]
    · simp [h, BigNum.gte, BigNum.lte]
  · intro hpos
    rw [hcases, if_neg (ne_of_gt hpos)]
    exact ⟨rfl, rfl⟩

/-- Claim C10 witness: with packet amount 10 and a positive foreign
maximum the zero-received rejection computes an infinite new maximum,
takes the anomaly branch, and leaves a finite maxPacketAmount of 70
unchanged. -/
theorem claimC10_witness :
    applyF08 (fin 70) (fin 10) 0 50 = fin 70 ∧
      f08NewMax (fin 10) 0 50 = posInf ∧
      (f08NewMax (fin 10) 0 50).gte (fin 10) = true := by
  obtain ⟨h1, h2⟩ := claimC10 (fin 70) 10 50 (by norm_num)
  obtain ⟨h3, h4⟩ := h2 (by norm_num)
  exact ⟨h1, h3, h4⟩

/-- Claim C9 counterexample: the loop rejects the returned promise
with no reason value on every fatal condition (Promise.reject() with
no argument), so the surfaced outcome of an idle timeout and of an
outgoing-capacity failure are identical and carry no condition: the
rejected outcome does not carry the failure reason to the caller. -/
theorem claimC9_counterexample :
    promiseResult .timedOut = promiseResult .insufficientOutgoing ∧
      promiseResult .timedOut = .rejected none ∧
      Final.timedOut ≠ Final.insufficientOutgoing := by
  refine ⟨rfl, rfl, ?_⟩
  intro h
  exact Final.noConfusion h

/-- Claim C9, amended: every fatal condition (idle timeout,
insufficient outgoing capacity, insufficient incoming capacity) aborts
the loop and surfaces to the caller as a rejected outcome — one
carrying no reason value, the condition being distinguishable only in
the logs — while per-packet rejections are absorbed locally: an
iteration that sends a packet and receives any reject always continues
the loop. -/
theorem claimC9 :
    (∀ (cfg : Config) (s : Session) (o : Obs), s.timeout < o.now →
      trySendPacket cfg s o = .finished .timedOut false none s ∧
        promiseResult .timedOut = .rejected none) ∧
    (∀ (cfg : Config) (s : Session) (o : Obs), ¬ s.timeout < o.now →
      (remainingOf cfg s).isZero = false → (remainingOf cfg s).lte (fin 0) = false →
      (remainingToSendOf cfg s).gt (fin o.availableToSend) = true →
      trySendPacket cfg s o = .finished .insufficientOutgoing false none s ∧
        promiseResult .insufficientOutgoing = .rejected none) ∧
    (∀ (cfg : Config) (s : Session) (o : Obs), ¬ s.timeout < o.now →
      (remainingOf cfg s).isZero = false → (remainingOf cfg s).lte (fin 0) = false →
      (remainingToSendOf cfg s).gt (fin o.availableToSend) = false →
      (remainingToReceiveOf cfg s).gt (fin o.availableToReceive) = true →
      trySendPacket cfg s o = .finished .insufficientIncoming false none s ∧
        promiseResult .insufficientIncoming = .rejected none) ∧
    (∀ (cfg : Config) (s : Session) (o : Obs) (code : String) (fr fm : ℕ),
      ReachesSend cfg s o → o.response = .reject code fr fm →
      ∃ s1, trySendPacket cfg s o = .next (some (packetAmountOf cfg s o)) s1) := by
  refine ⟨?_, ?_, ?_, ?_⟩
  · intro cfg s o h1
    exact ⟨trySendPacket_timedOut h1, rfl⟩
  · intro cfg s o h1 h2 h3 h4
    exact ⟨trySendPacket_insufficientOutgoing h1 h2 h3 h4, rfl⟩
  · intro cfg s o h1 h2 h3 h4 h5
    exact ⟨trySendPacket_insufficientIncoming h1 h2 h3 h4 h5, rfl⟩
  · intro cfg s o code fr fm hreach hresp
    by_cases hcode : code = "F08"
    · subst hcode
      exact ⟨_, trySendPacket_rejectF08 hreach hresp⟩
    · exact ⟨_, trySendPacket_rejectOther hreach hresp hcode⟩

/-- Claim C9 witness: a concrete timed-out iteration surfaces the
reason-free rejection, and a concrete rejected packet is absorbed with
the loop continuing. -/
theorem claimC9_witness :
    trySendPacket ⟨100, 1/100, 1, 1, 1⟩ (initialSession 0)
        ⟨20000, 1000, 1000, 1000, 20000, .reject "T00" 0 0⟩
      = .finished .timedOut false none (initialSession 0) ∧
    promiseResult .timedOut = .rejected none ∧
    (∃ s1, trySendPacket ⟨100, 1/100, 1, 1, 1⟩ (initialSession 0)
        ⟨0, 1000, 1000, 1000, 0, .reject "T00" 0 0⟩
      = .next (some (packetAmountOf ⟨100, 1/100, 1, 1, 1⟩ (initialSession 0)
          ⟨0, 1000, 1000, 1000, 0, .reject "T00" 0 0⟩)) s1) := by
  have h1 := (claimC9.1 ⟨100, 1/100, 1, 1, 1⟩ (initialSession 0)
    ⟨20000, 1000, 1000, 1000, 20000, .reject "T00" 0 0⟩
    (by norm_num [initialSession, IDLE_TIMEOUT]))
  have h2 := claimC9.2.2.2 ⟨100, 1/100, 1, 1, 1⟩ (initialSession 0)
    ⟨0, 1000, 1000, 1000, 0, .reject "T00" 0 0⟩ "T00" 0 0 (reach_cfgW _) rfl
  exact ⟨h1.1, h1.2, h2⟩

/-- Claim C8: after streamMoney reaches any terminal outcome —
success, overshoot, or any failure kind, including a thrown transport
failure — no accept predicate remains registered on the destination
uplink: the finally cleanup deregisters unconditionally on every exit
path. -/
theorem claimC8 :
    ∀ (cfg : Config) (t0 : ℚ) (obsL : List Obs),
      handlerRegistered (streamMoney cfg t0 obsL) = false := by
  intro cfg t0 obsL
  rw [streamMoney]
  cases runStream cfg (initialSession t0) obsL <;> rfl

/-- Claim C7: when the remaining amount converted to source exchange
units exceeds availableToSend at an iteration that is not already
terminal, the stream fails with the insufficient-outgoing-capacity
condition in that iteration, before sending any packet; when this
holds at the first iteration the run terminates with
prepareCount = 0. -/
theorem claimC7 :
    (∀ (cfg : Config) (s : Session) (o : Obs), ¬ s.timeout < o.now →
      (remainingOf cfg s).isZero = false → (remainingOf cfg s).lte (fin 0) = false →
      (remainingToSendOf cfg s).gt (fin o.availableToSend) = true →
      trySendPacket cfg s o = .finished .insufficientOutgoing false none s ∧
        sentOfStep (trySendPacket cfg s o) = none) ∧
    (∀ (cfg : Config) (t0 : ℚ) (o : Obs) (obsRest : List Obs),
      o.now ≤ t0 + IDLE_TIMEOUT → 0 < cfg.amountToSend →
      (remainingToSendOf cfg (initialSession t0)).gt (fin o.availableToSend) = true →
      runStream cfg (initialSession t0) (o :: obsRest)
          = .finished .insufficientOutgoing false (initialSession t0) ∧
        (initialSession t0).prepareCount = 0) := by
  constructor
  · intro cfg s o h1 h2 h3 h4
    refine ⟨trySendPacket_insufficientOutgoing h1 h2 h3 h4, ?_⟩
    rw [trySendPacket_insufficientOutgoing h1 h2 h3 h4]
    rfl
  · intro cfg t0 o obsRest htime hA h4
    have h1 : ¬ (initialSession t0).timeout < o.now := by
      rw [initialSession]
      exact not_lt.mpr htime
    have hrem : remainingOf cfg (initialSession t0) = fin cfg.amountToSend := by
      rw [remainingOf_fin rfl, sub_zero]
    have h2 : (remainingOf cfg (initialSession t0)).isZero = false := by
      rw [hrem]
      simp [ne_of_gt hA]
    have h3 : (remainingOf cfg (initialSession t0)).lte (fin 0) = false := by
      rw [hrem]
      simp [not_le.mpr hA]
    refine ⟨?_, rfl⟩
    rw [runStream, trySendPacket_insufficientOutgoing h1 h2 h3 h4]

/-- Claim C7 witness: a first iteration requesting 100 source base
units against an availableToSend of 50 exchange units fails before
sending anything. -/
theorem claimC7_witness :
    runStream ⟨100, 1/100, 1, 1, 1⟩ (initialSession 0)
        [⟨0, 50, 1000, 1000, 0, .fulfill⟩]
      = .finished .insufficientOutgoing false (initialSession 0) ∧
      (initialSession 0).prepareCount = 0 := by
  refine claimC7.2 ⟨100, 1/100, 1, 1, 1⟩ 0 ⟨0, 50, 1000, 1000, 0, .fulfill⟩ []
    (by norm_num [IDLE_TIMEOUT]) (by norm_num) ?_
  rw [remainingToSendOf, remainingOf_fin rfl, sub_zero]
  norm_num [BigNum.div, BigNum.gt_def, BigNum.lt]

theorem idleRun_aux (cfg : Config) (t0 : ℚ) (hA : 0 < cfg.amountToSend) :
    ∀ (obsL : List Obs) (s : Session),
      s.totalFulfilled = fin 0 → s.fulfillCount = 0 →
      s.timeout = t0 + IDLE_TIMEOUT →
      (∀ o ∈ obsL, rejectNonF08 o.response) →
      (∀ o ∈ obsL,
        ((fin cfg.amountToSend).div (fin cfg.srcScale)).gt (fin o.availableToSend) = false ∧
        (((fin cfg.amountToSend).mul (fin cfg.rate)).div (fin cfg.destScale)).gt
          (fin o.availableToReceive) = false) →
      (∃ o ∈ obsL, t0 + IDLE_TIMEOUT < o.now) →
      ∃ s', runStream cfg s obsL = .finished .timedOut false s' ∧
        s'.fulfillCount = 0 ∧ s'.totalFulfilled = fin 0 := by
  intro obsL
  induction obsL with
  | nil =>
    intro s _ _ _ _ _ hex
    obtain ⟨o, ho, _⟩ := hex
    exact absurd ho (List.not_mem_nil o)
  | cons o os ih =>
    intro s htf hfc hts hrej hcap hex
    have hrem : remainingOf cfg s = fin cfg.amountToSend := by
      rw [remainingOf_fin htf, sub_zero]
    by_cases hnow : t0 + IDLE_TIMEOUT < o.now
    · have h1 : s.timeout < o.now := by rw [hts]; exact hnow
      rw [runStream, trySendPacket_timedOut h1]
      exact ⟨s, rfl, hfc, htf⟩
    · have h1 : ¬ s.timeout < o.now := by rw [hts]; exact hnow
      have h2 : (remainingOf cfg s).isZero = false := by
        rw [hrem]; simp [ne_of_gt hA]
      have h3 : (remainingOf cfg s).lte (fin 0) = false := by
        rw [hrem]; simp [not_le.mpr hA]
      have h4 : (remainingToSendOf cfg s).gt (fin o.availableToSend) = false := by
        rw [remainingToSendOf, hrem]
        exact (hcap o (List.mem_cons_self o os)).1
      have h5 : (remainingToReceiveOf cfg s).gt (fin o.availableToReceive) = false := by
        rw [remainingToReceiveOf, hrem]
        exact (hcap o (List.mem_cons_self o os)).2
      have hex' : ∃ o' ∈ os, t0 + IDLE_TIMEOUT < o'.now := by
        obtain ⟨o', ho', hlate⟩ := hex
        rcases List.mem_cons.mp ho' with rfl | hmem
        · exact absurd hlate hnow
        · exact ⟨o', hmem, hlate⟩
      by_cases h6 : (availableToDebitOf cfg o).lte (fin 0) = true
      · rw [runStream, trySendPacket_debitWait h1 h2 h3 h4 h5 h6]
        exact ih s htf hfc hts (fun o' ho' => hrej o' (List.mem_cons_of_mem o ho'))
          (fun o' ho' => hcap o' (List.mem_cons_of_mem o ho')) hex'
      · rw [Bool.not_eq_true] at h6
        have hreach : ReachesSend cfg s o := ⟨h1, h2, h3, h4, h5, h6⟩
        have hro := hrej o (List.mem_cons_self o os)
        rcases hresp : o.response with _ | ⟨code, fr, fm⟩ | e
        · rw [hresp] at hro; exact absurd hro not_false
        · rw [hresp] at hro
          rw [runStream, trySendPacket_rejectOther hreach hresp hro]
          exact ih { s with prepareCount := s.prepareCount + 1 } htf hfc hts
            (fun o' ho' => hrej o' (List.mem_cons_of_mem o ho'))
            (fun o' ho' => hcap o' (List.mem_cons_of_mem o ho')) hex'
        · rw [hresp] at hro; exact absurd hro not_false

/-- Claim C6: the idle deadline is set to the start time plus the idle
window at session start and is refreshed only by a successful
fulfillment (every other continuing iteration leaves it unchanged); an
iteration whose start time exceeds the idle deadline never continues
but fails with the timeout condition; and a run in which every packet
is rejected with a non-F08 code and some iteration starts after the
initial deadline fails with the timeout condition and
fulfillCount = 0. -/
theorem claimC6 :
    (∀ t0 : ℚ, (initialSession t0).timeout = t0 + IDLE_TIMEOUT) ∧
    (∀ (cfg : Config) (s : Session) (o : Obs) (sent : Option BigNum) (s1 : Session),
      trySendPacket cfg s o = .next sent s1 →
      s1.timeout = s.timeout ∨
        (o.response = .fulfill ∧ s1.timeout = o.respNow + IDLE_TIMEOUT)) ∧
    (∀ (cfg : Config) (s : Session) (o : Obs), s.timeout < o.now →
      trySendPacket cfg s o = .finished .timedOut false none s) ∧
    (∀ (cfg : Config) (t0 : ℚ) (obsL : List Obs), 0 < cfg.amountToSend →
      (∀ o ∈ obsL, rejectNonF08 o.response) →
      (∀ o ∈ obsL,
        ((fin cfg.amountToSend).div (fin cfg.srcScale)).gt (fin o.availableToSend) = false ∧
        (((fin cfg.amountToSend).mul (fin cfg.rate)).div (fin cfg.destScale)).gt
          (fin o.availableToReceive) = false) →
      (∃ o ∈ obsL, t0 + IDLE_TIMEOUT < o.now) →
      ∃ s', runStream cfg (initialSession t0) obsL = .finished .timedOut false s' ∧
        s'.fulfillCount = 0) := by
  refine ⟨fun _ => rfl, ?_, fun _ _ _ h => trySendPacket_timedOut h, ?_⟩
  · intro cfg s o sent s1 h
    by_cases h1 : s.timeout < o.now
    · rw [trySendPacket_timedOut h1] at h; exact absurd h (by simp)
    by_cases h2 : (remainingOf cfg s).isZero = true
    · rw [trySendPacket_succeeded h1 h2] at h; exact absurd h (by simp)
    rw [Bool.not_eq_true] at h2
    by_cases h3 : (remainingOf cfg s).lte (fin 0) = true
    · rw [trySendPacket_overshoot h1 h2 h3] at h; exact absurd h (by simp)
    rw [Bool.not_eq_true] at h3
    by_cases h4 : (remainingToSendOf cfg s).gt (fin o.availableToSend) = true
    · rw [trySendPacket_insufficientOutgoing h1 h2 h3 h4] at h; exact absurd h (by simp)
    rw [Bool.not_eq_true] at h4
    by_cases h5 : (remainingToReceiveOf cfg s).gt (fin o.availableToReceive) = true
    · rw [trySendPacket_insufficientIncoming h1 h2 h3 h4 h5] at h; exact absurd h (by simp)
    rw [Bool.not_eq_true] at h5
    by_cases h6 : (availableToDebitOf cfg o).lte (fin 0) = true
    · rw [trySendPacket_debitWait h1 h2 h3 h4 h5 h6] at h
      injection h with _ hs
      left; rw [← hs]
    rw [Bool.not_eq_true] at h6
    have hreach : ReachesSend cfg s o := ⟨h1, h2, h3, h4, h5, h6⟩
    rcases hresp : o.response with _ | ⟨code, fr, fm⟩ | e
    · rw [trySendPacket_fulfill hreach hresp] at h
      injection h with _ hs
      right
      exact ⟨rfl, by rw [← hs]⟩
    · by_cases hcode : code = "F08"
      · subst hcode
        rw [trySendPacket_rejectF08 hreach hresp] at h
        injection h with _ hs
        left; rw [← hs]
      · rw [trySendPacket_rejectOther hreach hresp hcode] at h
        injection h with _ hs
        left; rw [← hs]
    · rw [trySendPacket_throw hreach hresp] at h; exact absurd h (by simp)
  · intro cfg t0 obsL hA hrej hcap hex
    obtain ⟨s', hrun, hfc, _⟩ :=
      idleRun_aux cfg t0 hA obsL (initialSession t0) rfl rfl rfl hrej hcap hex
    exact ⟨s', hrun, hfc⟩

/-- Claim C6 witness: a run whose only iteration starts at 20000,
past the initial deadline 10000, with a non-F08 rejection and ample
capacity, fails with the timeout condition and no fulfills. -/
theorem claimC6_witness :
    (∃ s', runStream ⟨100, 1/100, 1, 1, 1⟩ (initialSession 0)
        [⟨20000, 1000, 1000, 1000, 20000, .reject "T00" 0 0⟩]
      = .finished .timedOut false s' ∧ s'.fulfillCount = 0) ∧
      (initialSession 0).timeout = 0 + IDLE_TIMEOUT := by
  refine ⟨?_, claimC6.1 0⟩
  refine claimC6.2.2.2 ⟨100, 1/100, 1, 1, 1⟩ 0
    [⟨20000, 1000, 1000, 1000, 20000, .reject "T00" 0 0⟩] (by norm_num) ?_ ?_ ?_
  · intro o ho
    rcases List.mem_singleton.mp ho with rfl
    simp [rejectNonF08]
  · intro o ho
    rcases List.mem_singleton.mp ho with rfl
    constructor <;> norm_num [BigNum.div, BigNum.mul, BigNum.gt_def, BigNum.lt]
  · exact ⟨_, List.mem_singleton_self _, by norm_num [IDLE_TIMEOUT]⟩

theorem maxSentQ_nonneg : ∀ l : List BigNum, 0 ≤ maxSentQ l := by
  intro l
  induction l with
  | nil => exact le_refl 0
  | cons b rest ih =>
    cases b <;> simp [maxSentQ, ih]

theorem maxSentQ_append (l1 l2 : List BigNum) :
    maxSentQ (l1 ++ l2) = max (maxSentQ l1) (maxSentQ l2) := by
  induction l1 with
  | nil => simp [maxSentQ, max_eq_right (maxSentQ_nonneg l2)]
  | cons b rest ih =>
    cases b <;> simp [maxSentQ, ih, max_assoc]

theorem trySendPacket_finished_totalFulfilled {cfg : Config} {s : Session}
    {o : Obs} {f : Final} {r : Bool} {sent : Option BigNum} {s1 : Session}
    (h : trySendPacket cfg s o = .finished f r sent s1) :
    s1.totalFulfilled = s.totalFulfilled := by
  by_cases h1 : s.timeout < o.now
  · rw [trySendPacket_timedOut h1] at h
    injection h with _ _ _ hs; rw [← hs]
  by_cases h2 : (remainingOf cfg s).isZero = true
  · rw [trySendPacket_succeeded h1 h2] at h
    injection h with _ _ _ hs; rw [← hs]
  rw [Bool.not_eq_true] at h2
  by_cases h3 : (remainingOf cfg s).lte (fin 0) = true
  · rw [trySendPacket_overshoot h1 h2 h3] at h
    injection h with _ _ _ hs; rw [← hs]
  rw [Bool.not_eq_true] at h3
  by_cases h4 : (remainingToSendOf cfg s).gt (fin o.availableToSend) = true
  · rw [trySendPacket_insufficientOutgoing h1 h2 h3 h4] at h
    injection h with _ _ _ hs; rw [← hs]
  rw [Bool.not_eq_true] at h4
  by_cases h5 : (remainingToReceiveOf cfg s).gt (fin o.availableToReceive) = true
  · rw [trySendPacket_insufficientIncoming h1 h2 h3 h4 h5] at h
    injection h with _ _ _ hs; rw [← hs]
  rw [Bool.not_eq_true] at h5
  by_cases h6 : (availableToDebitOf cfg o).lte (fin 0) = true
  · rw [trySendPacket_debitWait h1 h2 h3 h4 h5 h6] at h; exact absurd h (by simp)
  rw [Bool.not_eq_true] at h6
  have hreach : ReachesSend cfg s o := ⟨h1, h2, h3, h4, h5, h6⟩
  rcases hresp : o.response with _ | ⟨code, fr, fm⟩ | e
  · rw [trySendPacket_fulfill hreach hresp] at h; exact absurd h (by simp)
  · by_cases hcode : code = "F08"
    · subst hcode
      rw [trySendPacket_rejectF08 hreach hresp] at h; exact absurd h (by simp)
    · rw [trySendPacket_rejectOther hreach hresp hcode] at h; exact absurd h (by simp)
  · rw [trySendPacket_throw hreach hresp] at h
    injection h with _ _ _ hs; rw [← hs]

theorem trySendPacket_next_cases {cfg : Config} {s : Session} {o : Obs}
    {sent : Option BigNum} {s1 : Session} {t : ℚ} (hOK : SessionOK s)
    (ht : s.totalFulfilled = fin t)
    (h : trySendPacket cfg s o = .next sent s1) :
    (sent = none ∧ s1 = s) ∨
      (∃ k : ℕ, sent = some (fin (k : ℚ)) ∧ t < cfg.amountToSend ∧
        (s1.totalFulfilled = fin t ∨ s1.totalFulfilled = fin (t + k))) := by
  by_cases h1 : s.timeout < o.now
  · rw [trySendPacket_timedOut h1] at h; exact absurd h (by simp)
  by_cases h2 : (remainingOf cfg s).isZero = true
  · rw [trySendPacket_succeeded h1 h2] at h; exact absurd h (by simp)
  rw [Bool.not_eq_true] at h2
  by_cases h3 : (remainingOf cfg s).lte (fin 0) = true
  · rw [trySendPacket_overshoot h1 h2 h3] at h; exact absurd h (by simp)
  rw [Bool.not_eq_true] at h3
  by_cases h4 : (remainingToSendOf cfg s).gt (fin o.availableToSend) = true
  · rw [trySendPacket_insufficientOutgoing h1 h2 h3 h4] at h; exact absurd h (by simp)
  rw [Bool.not_eq_true] at h4
  by_cases h5 : (remainingToReceiveOf cfg s).gt (fin o.availableToReceive) = true
  · rw [trySendPacket_insufficientIncoming h1 h2 h3 h4 h5] at h; exact absurd h (by simp)
  rw [Bool.not_eq_true] at h5
  by_cases h6 : (availableToDebitOf cfg o).lte (fin 0) = true
  · rw [trySendPacket_debitWait h1 h2 h3 h4 h5 h6] at h
    injection h with hsent hs
    exact Or.inl ⟨hsent.symm, hs.symm⟩
  rw [Bool.not_eq_true] at h6
  have hreach : ReachesSend cfg s o := ⟨h1, h2, h3, h4, h5, h6⟩
  obtain ⟨k, hk, _⟩ := packetAmount_ok hOK hreach
  have hlt : t < cfg.amountToSend := by
    have := remaining_pos ht h3
    linarith
  rcases hresp : o.response with _ | ⟨code, fr, fm⟩ | e
  · rw [trySendPacket_fulfill hreach hresp] at h
    injection h with hsent hs
    refine Or.inr ⟨k, by rw [← hsent, hk], hlt, Or.inr ?_⟩
    rw [← hs]
    show s.totalFulfilled.add (packetAmountOf cfg s o) = fin (t + k)
    rw [ht, hk, BigNum.add_fin_fin]
  · by_cases hcode : code = "F08"
    · subst hcode
      rw [trySendPacket_rejectF08 hreach hresp] at h
      injection h with hsent hs
      refine Or.inr ⟨k, by rw [← hsent, hk], hlt, Or.inl ?_⟩
      rw [← hs]
      exact ht
    · rw [trySendPacket_rejectOther hreach hresp hcode] at h
      injection h with hsent hs
      refine Or.inr ⟨k, by rw [← hsent, hk], hlt, Or.inl ?_⟩
      rw [← hs]
      exact ht
  · rw [trySendPacket_throw hreach hresp] at h; exact absurd h (by simp)

theorem runStreamSent_inv (cfg : Config) :
    ∀ (obsL : List Obs) (s : Session) (acc : List BigNum) (t : ℚ),
      SessionOK s → s.totalFulfilled = fin t →
      (t ≤ cfg.amountToSend ∨ t < cfg.amountToSend + maxSentQ acc) →
      ∃ t' : ℚ,
        (stateOf (runStreamSent cfg s acc obsL).1).totalFulfilled = fin t' ∧
          (t' ≤ cfg.amountToSend ∨
            t' < cfg.amountToSend + maxSentQ (runStreamSent cfg s acc obsL).2) := by
  intro obsL
  induction obsL with
  | nil =>
    intro s acc t _ ht hinv
    exact ⟨t, ht, hinv⟩
  | cons o os ih =>
    intro s acc t hOK ht hinv
    obtain ⟨hOK1, _⟩ := @trySendPacket_preserves cfg s o hOK
    cases hstep : trySendPacket cfg s o with
    | finished f r sent s1 =>
      simp only [runStreamSent, hstep]
      have htf1 : s1.totalFulfilled = fin t := by
        rw [trySendPacket_finished_totalFulfilled hstep, ht]
      refine ⟨t, htf1, ?_⟩
      rcases hinv with hinv | hinv
      · exact Or.inl hinv
      · refine Or.inr (lt_of_lt_of_le hinv ?_)
        rw [maxSentQ_append]
        exact add_le_add_left (le_max_left _ _) _
    | next sent s1 =>
      simp only [runStreamSent, hstep]
      rw [hstep] at hOK1
      rcases trySendPacket_next_cases hOK ht hstep with ⟨hsent, hs1⟩ |
        ⟨k, hsent, hlt, hcase⟩
      · subst hs1
        subst hsent
        simpa using ih _ acc t hOK ht hinv
      · subst hsent
        have hk0 : (0 : ℚ) ≤ (k : ℚ) := by positivity
        have hmax : (k : ℚ) ≤ maxSentQ (acc ++ [fin (k : ℚ)]) := by
          rw [maxSentQ_append]
          refine le_trans ?_ (le_max_right _ _)
          simp [maxSentQ, max_eq_left hk0]
        rcases hcase with hfin | hfin
        · refine ih s1 (acc ++ [fin (k : ℚ)]) t hOK1 hfin ?_
          rcases hinv with hinv | hinv
          · exact Or.inl hinv
          · refine Or.inr (lt_of_lt_of_le hinv ?_)
            rw [maxSentQ_append]
            exact add_le_add_left (le_max_left _ _) _
        · refine ih s1 (acc ++ [fin (k : ℚ)]) (t + k) hOK1 hfin (Or.inr ?_)
          have hlt2 : t + (k : ℚ) < cfg.amountToSend + (k : ℚ) := by linarith
          exact lt_of_lt_of_le hlt2 (add_le_add_left hmax _)

/-- Claim C5: at every point of a session started on a nonnegative
amount, totalFulfilled is at most amountToSend plus the largest single
packet amount sent so far, and at any termination the overshoot
totalFulfilled minus amountToSend, when positive, is strictly less
than the largest single packet amount sent during the session. -/
theorem claimC5 (cfg : Config) (t0 : ℚ) (obsL : List Obs)
    (hA : 0 ≤ cfg.amountToSend) :
    (∀ pre suf : List Obs, obsL = pre ++ suf →
      ∃ t : ℚ,
        (stateOf (runStreamSent cfg (initialSession t0) [] pre).1).totalFulfilled
          = fin t ∧
        t ≤ cfg.amountToSend
          + maxSentQ (runStreamSent cfg (initialSession t0) [] pre).2) ∧
    (∀ (f : Final) (r : Bool) (s1 : Session),
      (runStreamSent cfg (initialSession t0) [] obsL).1 = .finished f r s1 →
      ∃ t : ℚ, s1.totalFulfilled = fin t ∧
        (0 < t - cfg.amountToSend →
          t - cfg.amountToSend
            < maxSentQ (runStreamSent cfg (initialSession t0) [] obsL).2)) := by
  have hOK0 : SessionOK (initialSession t0) := ⟨⟨0, rfl, le_refl 0⟩, Or.inl rfl⟩
  constructor
  · intro pre suf _
    obtain ⟨t, ht, hbound⟩ := runStreamSent_inv cfg pre (initialSession t0) [] 0
      hOK0 rfl (Or.inl hA)
    refine ⟨t, ht, ?_⟩
    rcases hbound with hbound | hbound
    · exact le_trans hbound (le_add_of_nonneg_right (maxSentQ_nonneg _))
    · exact hbound.le
  · intro f r s1 hfin
    obtain ⟨t, ht, hbound⟩ := runStreamSent_inv cfg obsL (initialSession t0) [] 0
      hOK0 rfl (Or.inl hA)
    rw [hfin] at ht
    refine ⟨t, ht, ?_⟩
    intro hpos
    rcases hbound with hbound | hbound
    · linarith
    · linarith

/-- Claim C5 witness: for a concrete single-fulfill run the fulfilled
total stays within amountToSend plus the largest sent packet. -/
theorem claimC5_witness :
    ∃ t : ℚ,
      (stateOf (runStreamSent ⟨100, 1/100, 1, 1, 1⟩ (initialSession 0) []
          [⟨0, 1000, 1000, 1000, 0, .fulfill⟩]).1).totalFulfilled = fin t ∧
        t ≤ (100 : ℚ) + maxSentQ (runStreamSent ⟨100, 1/100, 1, 1, 1⟩
          (initialSession 0) [] [⟨0, 1000, 1000, 1000, 0, .fulfill⟩]).2 :=
  (claimC5 ⟨100, 1/100, 1, 1, 1⟩ 0 [⟨0, 1000, 1000, 1000, 0, .fulfill⟩]
    (by norm_num)).1 [⟨0, 1000, 1000, 1000, 0, .fulfill⟩] [] rfl

theorem packetAmount_posInf_bounds {cfg : Config} {s : Session} {o : Obs} {t : ℚ}
    (ht : s.totalFulfilled = fin t) (hmp : s.maxPacketAmount = posInf)
    (hreach : ReachesSend cfg s o) :
    ∃ k : ℕ, packetAmountOf cfg s o = fin (k : ℚ) ∧ 1 ≤ k ∧
      (k : ℤ) ≤ ⌈cfg.amountToSend - t⌉ := by
  have hr := remaining_pos ht hreach.notOver
  have ha := availDebit_pos hreach.debit
  set r := cfg.amountToSend - t with hrdef
  set a := o.availableToDebitRaw * cfg.srcScale with hadef
  have hmin : min2 (fin a) (min2 (fin r) s.maxPacketAmount) = fin (min a r) := by
    rw [hmp, min2_fin_posInf, min2_fin_fin]
  have hpmin : 0 < min a r := lt_min ha hr
  have hsz := packetSizeB_fin_pos hr hpmin hmin
  obtain ⟨h1, _, h3⟩ := sizeBounds hr hpmin
  set K := ⌈r / ((⌈r / min a r⌉ : ℤ) : ℚ)⌉ with hK
  refine ⟨K.toNat, ?_, ?_, ?_⟩
  · rw [packetAmountOf, remainingOf_fin ht, availableToDebitOf, ← hrdef, ← hadef, hsz]
    congr 1
    exact_mod_cast (Int.toNat_of_nonneg (le_trans one_pos.le h1)).symm
  · omega
  · rw [Int.toNat_of_nonneg (le_trans one_pos.le h1)]
    exact h3

theorem c4_aux (cfg : Config) (hsrc : 0 < cfg.srcScale)
    (hdest : 0 < cfg.destScale) (hrate : 0 < cfg.rate) :
    ∀ rN : ℕ, ∀ (s : Session) (t : ℚ) (f : ℕ → Obs),
      s.totalFulfilled = fin t → 0 ≤ t → cfg.amountToSend = t + (rN : ℚ) →
      s.maxPacketAmount = posInf → s.fulfillCount = s.prepareCount →
      (f 0).now ≤ s.timeout →
      (∀ i, (f (i + 1)).now ≤ (f i).respNow + IDLE_TIMEOUT) →
      (∀ i, capUnlimited cfg (f i)) →
      (∀ i, (f i).response = .fulfill) →
      ∃ (n : ℕ) (s2 : Session),
        runStream cfg s (obsList f n) = .finished .succeeded false s2 ∧
          s2.totalFulfilled = fin cfg.amountToSend ∧
          s2.fulfillCount = s2.prepareCount := by
  intro rN
  induction rN using Nat.strong_induction_on with
  | _ rN ih =>
    intro s t f ht ht0 hAt hmp hcounts htime hsteps hcap hresp
    have h1 : ¬ s.timeout < (f 0).now := not_lt.mpr htime
    by_cases hr0 : rN = 0
    · subst hr0
      have hAt' : cfg.amountToSend - t = 0 := by
        rw [hAt]; push_cast; ring
      have h2 : (remainingOf cfg s).isZero = true := by
        rw [remainingOf_fin ht, hAt']; simp
      refine ⟨1, s, ?_, ?_, hcounts⟩
      · simp only [obsList, runStream, trySendPacket_succeeded h1 h2]
      · rw [ht]
        congr 1
        rw [hAt]; push_cast; ring
    · have hrpos : 0 < rN := Nat.pos_of_ne_zero hr0
      have hrq : (0 : ℚ) < (rN : ℚ) := by exact_mod_cast hrpos
      have hAt' : cfg.amountToSend - t = (rN : ℚ) := by rw [hAt]; ring
      have hrem : remainingOf cfg s = fin ((rN : ℚ)) := by
        rw [remainingOf_fin ht, hAt']
      have hrNA : (rN : ℚ) ≤ cfg.amountToSend := by rw [hAt]; linarith
      have h2 : (remainingOf cfg s).isZero = false := by
        rw [hrem]; simp [ne_of_gt hrq]
      have h3 : (remainingOf cfg s).lte (fin 0) = false := by
        rw [hrem]; simp [not_le.mpr hrq]
      have h4 : (remainingToSendOf cfg s).gt (fin (f 0).availableToSend) = false := by
        rw [remainingToSendOf, hrem, BigNum.div_fin_fin_of_ne _ _ (ne_of_gt hsrc)]
        simp only [BigNum.gt_def, BigNum.lt_fin_fin, decide_eq_false_iff_not, not_lt]
        calc (rN : ℚ) / cfg.srcScale ≤ cfg.amountToSend / cfg.srcScale := by gcongr
          _ ≤ (f 0).availableToSend := (hcap 0).1
      have h5 : (remainingToReceiveOf cfg s).gt (fin (f 0).availableToReceive) = false := by
        rw [remainingToReceiveOf, hrem, BigNum.mul_fin_fin,
          BigNum.div_fin_fin_of_ne _ _ (ne_of_gt hdest)]
        simp only [BigNum.gt_def, BigNum.lt_fin_fin, decide_eq_false_iff_not, not_lt]
        calc (rN : ℚ) * cfg.rate / cfg.destScale
            ≤ cfg.amountToSend * cfg.rate / cfg.destScale := by gcongr
          _ ≤ (f 0).availableToReceive := (hcap 0).2.1
      have h6 : (availableToDebitOf cfg (f 0)).lte (fin 0) = false := by
        rw [availableToDebitOf]
        simp [not_le.mpr (mul_pos (hcap 0).2.2 hsrc)]
      have hreach : ReachesSend cfg s (f 0) := ⟨h1, h2, h3, h4, h5, h6⟩
      obtain ⟨k, hk, hk1, hkceil⟩ := packetAmount_posInf_bounds ht hmp hreach
      have hkrN : k ≤ rN := by
        rw [hAt', Int.ceil_natCast] at hkceil
        exact_mod_cast hkceil
      have hstep := trySendPacket_fulfill hreach (hresp 0)
      obtain ⟨n, sf, hrun, htot, hcnt⟩ :=
        ih (rN - k) (Nat.sub_lt hrpos hk1)
          { timeout := (f 0).respNow + IDLE_TIMEOUT
            prepareCount := s.prepareCount + 1
            fulfillCount := s.fulfillCount + 1
            totalFulfilled := s.totalFulfilled.add (packetAmountOf cfg s (f 0))
            maxPacketAmount := s.maxPacketAmount }
          (t + (k : ℚ)) (fun i => f (i + 1))
          (by show s.totalFulfilled.add (packetAmountOf cfg s (f 0)) = fin (t + (k : ℚ))
              rw [ht, hk, BigNum.add_fin_fin])
          (by have hk0 : (0 : ℚ) ≤ (k : ℚ) := Nat.cast_nonneg k
              linarith)
          (by rw [Nat.cast_sub hkrN, hAt]; ring)
          hmp
          (by show s.fulfillCount + 1 = s.prepareCount + 1
              rw [hcounts])
          (by show (f (0 + 1)).now ≤ (f 0).respNow + IDLE_TIMEOUT
              exact hsteps 0)
          (fun i => hsteps (i + 1))
          (fun i => hcap (i + 1))
          (fun i => hresp (i + 1))
      refine ⟨n + 1, sf, ?_, htot, hcnt⟩
      simp only [obsList, runStream, hstep]
      exact hrun

/-- Claim C4, amended: for every stream run with unlimited outgoing,
incoming and debit capacity whose destination fulfills every packet,
whose iterations are never delayed past the current idle deadline, and
whose amountToSend is a whole number of base units, the loop
terminates in the success state with totalFulfilled exactly
amountToSend and fulfillCount equal to prepareCount. -/
theorem claimC4 (cfg : Config) (t0 : ℚ) (f : ℕ → Obs) (N : ℕ)
    (hsrc : 0 < cfg.srcScale) (hdest : 0 < cfg.destScale) (hrate : 0 < cfg.rate)
    (hA : cfg.amountToSend = (N : ℚ))
    (htime0 : (f 0).now ≤ t0 + IDLE_TIMEOUT)
    (hsteps : ∀ i, (f (i + 1)).now ≤ (f i).respNow + IDLE_TIMEOUT)
    (hcap : ∀ i, capUnlimited cfg (f i))
    (hresp : ∀ i, (f i).response = .fulfill) :
    ∃ (n : ℕ) (s2 : Session),
      runStream cfg (initialSession t0) (obsList f n)
          = .finished .succeeded false s2 ∧
        s2.totalFulfilled = fin cfg.amountToSend ∧
        s2.fulfillCount = s2.prepareCount :=
  c4_aux cfg hsrc hdest hrate N (initialSession t0) 0 f rfl (le_refl 0)
    (by rw [hA]; ring) rfl rfl htime0 hsteps hcap hresp

/-- Claim C4 witness: a run sending 100 base units with unlimited
capacities and an always-fulfilling destination reaches the success
state exactly. -/
theorem claimC4_witness :
    ∃ (n : ℕ) (s2 : Session),
      runStream ⟨100, 1/100, 1, 1, 1⟩ (initialSession 0)
          (obsList (fun _ => ⟨0, 1000, 1000, 1000, 0, .fulfill⟩) n)
          = .finished .succeeded false s2 ∧
        s2.totalFulfilled = fin (100 : ℚ) ∧
        s2.fulfillCount = s2.prepareCount :=
  claimC4 ⟨100, 1/100, 1, 1, 1⟩ 0 (fun _ => ⟨0, 1000, 1000, 1000, 0, .fulfill⟩) 100
    (by norm_num) (by norm_num) (by norm_num) (by norm_num)
    (by norm_num [IDLE_TIMEOUT])
    (fun i => by norm_num [IDLE_TIMEOUT])
    (fun i => by norm_num [capUnlimited])
    (fun i => rfl)

/-- Claim C4 counterexample: with unlimited capacity, prompt timing
and an always-fulfilling destination, streaming the fractional amount
one half of a base unit sends a single packet of 1 (the sizing rounds
up to whole base units) and terminates in the overshoot state with
totalFulfilled = 1, not in the success state with totalFulfilled equal
to amountToSend. -/
theorem claimC4_counterexample :
    capUnlimited cfgHalf obsUnl ∧ obsUnl.response = .fulfill ∧
      obsUnl.now ≤ 0 + IDLE_TIMEOUT ∧
      runStream cfgHalf (initialSession 0) [obsUnl, obsUnl]
        = .finished .overshoot false ⟨10000, 1, 1, fin 1, posInf⟩ ∧
      fin (1 : ℚ) ≠ fin cfgHalf.amountToSend ∧
      Final.overshoot ≠ Final.succeeded := by
  have hreach : ReachesSend cfgHalf (initialSession 0) obsUnl := by
    constructor <;>
      norm_num [cfgHalf, obsUnl, initialSession, IDLE_TIMEOUT, remainingOf,
        remainingToSendOf, remainingToReceiveOf, availableToDebitOf, BigNum.sub,
        BigNum.add, BigNum.neg, BigNum.div, BigNum.mul, BigNum.isZero, BigNum.lte,
        BigNum.gt_def, BigNum.lt]
  have hceilHalf : (⌈(1 : ℚ)/2⌉ : ℤ) = 1 := by
    rw [Int.ceil_eq_iff]
    norm_num
  have hpa : packetAmountOf cfgHalf (initialSession 0) obsUnl = fin 1 := by
    have hr : (0 : ℚ) < cfgHalf.amountToSend - 0 := by norm_num [cfgHalf]
    have hp : (0 : ℚ) < min (obsUnl.availableToDebitRaw * cfgHalf.srcScale)
        (cfgHalf.amountToSend - 0) := by norm_num [cfgHalf, obsUnl]
    have hmin : min2 (fin (obsUnl.availableToDebitRaw * cfgHalf.srcScale))
        (min2 (fin (cfgHalf.amountToSend - 0)) (initialSession 0).maxPacketAmount)
        = fin (min (obsUnl.availableToDebitRaw * cfgHalf.srcScale)
            (cfgHalf.amountToSend - 0)) := by
      show min2 _ (min2 _ posInf) = _
      rw [min2_fin_posInf, min2_fin_fin]
    rw [packetAmountOf, remainingOf_fin rfl, availableToDebitOf,
      packetSizeB_fin_pos hr hp hmin]
    have e1 : (cfgHalf.amountToSend - 0) / min
        (obsUnl.availableToDebitRaw * cfgHalf.srcScale)
        (cfgHalf.amountToSend - 0) = ((1 : ℤ) : ℚ) := by
      norm_num [cfgHalf, obsUnl]
    rw [e1, Int.ceil_intCast]
    have e2 : (cfgHalf.amountToSend - 0) / ((1 : ℤ) : ℚ) = (1 : ℚ)/2 := by
      norm_num [cfgHalf]
    rw [e2, hceilHalf]
    norm_num
  have hstep1 := trySendPacket_fulfill hreach rfl
  have hs2tf : ((initialSession 0).totalFulfilled.add
      (packetAmountOf cfgHalf (initialSession 0) obsUnl)) = fin 1 := by
    rw [hpa]
    show (fin 0).add (fin 1) = fin 1
    rw [BigNum.add_fin_fin]
    norm_num
  refine ⟨by norm_num [capUnlimited, cfgHalf, obsUnl],
    rfl, by norm_num [obsUnl, IDLE_TIMEOUT], ?_, ?_, ?_⟩
  · simp only [runStream, hstep1]
    have h1 : ¬ (obsUnl.respNow + IDLE_TIMEOUT) < obsUnl.now := by
      norm_num [obsUnl, IDLE_TIMEOUT]
    have hrem2 : remainingOf cfgHalf
        { timeout := obsUnl.respNow + IDLE_TIMEOUT
          prepareCount := (initialSession 0).prepareCount + 1
          fulfillCount := (initialSession 0).fulfillCount + 1
          totalFulfilled := (initialSession 0).totalFulfilled.add
            (packetAmountOf cfgHalf (initialSession 0) obsUnl)
          maxPacketAmount := (initialSession 0).maxPacketAmount }
        = fin (cfgHalf.amountToSend - 1) := by
      rw [remainingOf_fin]
      show _ = fin 1
      exact hs2tf
    have h2 : (remainingOf cfgHalf
        { timeout := obsUnl.respNow + IDLE_TIMEOUT
          prepareCount := (initialSession 0).prepareCount + 1
          fulfillCount := (initialSession 0).fulfillCount + 1
          totalFulfilled := (initialSession 0).totalFulfilled.add
            (packetAmountOf cfgHalf (initialSession 0) obsUnl)
          maxPacketAmount := (initialSession 0).maxPacketAmount }).isZero = false := by
      rw [hrem2]
      norm_num [cfgHalf]
    have h3 : (remainingOf cfgHalf
        { timeout := obsUnl.respNow + IDLE_TIMEOUT
          prepareCount := (initialSession 0).prepareCount + 1
          fulfillCount := (initialSession 0).fulfillCount + 1
          totalFulfilled := (initialSession 0).totalFulfilled.add
            (packetAmountOf cfgHalf (initialSession 0) obsUnl)
          maxPacketAmount := (initialSession 0).maxPacketAmount }).lte (fin 0)
        = true := by
      rw [hrem2]
      norm_num [cfgHalf]
    simp only [runStream, trySendPacket_overshoot h1 h2 h3]
    congr 1
    simp only [Session.mk.injEq]
    refine ⟨by norm_num [obsUnl, IDLE_TIMEOUT], rfl, rfl, hs2tf, rfl⟩
  · intro h
    injection h with h
    norm_num [cfgHalf] at h
  · intro h
    exact Final.noConfusion h

end IlpSdk
